import Mathlib

/-!
kinesis-go-sample: stream lifecycle orchestration.

A shallow embedding of `main.go`.  The program talks to the stream service
through seven client operations; each is embedded as a function from the
service state to a response and a new service state, so that a run of the
program is a pure function of the client it is given.

* A Go pointer is an `Option`; dereferencing a nil pointer is the fault
  `Fault.nilDeref`.
* A Go `(output, err)` pair is an `Except Err output`.
* `panic(err)` is the outcome `Outcome.panicked (Fault.err err)`.
* A `for { ... }` loop takes a bound on its number of iterations; running out
  of it is the outcome `Outcome.unfinished`, which is neither a return nor a
  fault.
* Every service call is appended to the world's call log with the response it
  got, and every `fmt.Println` to the world's output.
-/

namespace Kinesis

/-! ## Errors -/

/-- Error values returned by the service client.  The SDK wraps the modelled
service exception in operation errors, hence `Wrap`. -/
inductive Err where
  | ResourceInUseException (msg : String)
  | ResourceNotFoundException (msg : String)
  | Other (code : String)
  | Wrap (op : String) (inner : Err)
  deriving DecidableEq, Repr

/-- The test `errors.As(err, &exists)` for `exists : *types.ResourceInUseException`:
some error of the chain is a `ResourceInUseException`. -/
def Err.AsResourceInUse : Err → Bool
  | .ResourceInUseException _ => true
  | .ResourceNotFoundException _ => false
  | .Other _ => false
  | .Wrap _ inner => inner.AsResourceInUse

/-- The test `errors.As(err, &rnf)` for `rnf : *types.ResourceNotFoundException`. -/
def Err.AsResourceNotFound : Err → Bool
  | .ResourceInUseException _ => false
  | .ResourceNotFoundException _ => true
  | .Other _ => false
  | .Wrap _ inner => inner.AsResourceNotFound

deriving instance DecidableEq for Except

/-! ## Requests and responses -/

/-- The Go type `types.StreamStatus`, a string. -/
abbrev StreamStatus := String

def StreamStatusCreating : StreamStatus := "CREATING"
def StreamStatusDeleting : StreamStatus := "DELETING"
def StreamStatusActive : StreamStatus := "ACTIVE"
def StreamStatusUpdating : StreamStatus := "UPDATING"

/-- The Go type `types.StreamMode`, a string. -/
abbrev StreamMode := String

def StreamModeProvisioned : StreamMode := "PROVISIONED"

/-- The Go type `types.ShardIteratorType`, a string. -/
abbrev ShardIteratorType := String

def ShardIteratorTypeTrimHorizon : ShardIteratorType := "TRIM_HORIZON"

/-- A Go byte slice. -/
abbrev Bytes := List UInt8

/-- The conversion `[]byte(s)`. -/
def bytesOf (s : String) : Bytes := s.toUTF8.data.toList

/-- The call `fmt.Sprint(i)` for the loop index `i`: its decimal text. -/
def Sprint (i : Nat) : String := toString i

structure StreamModeDetails where
  StreamMode : StreamMode
  deriving DecidableEq, Repr

structure CreateStreamInput where
  StreamName : Option String
  StreamModeDetails : Option StreamModeDetails
  ShardCount : Option Int
  deriving DecidableEq, Repr

structure CreateStreamOutput where
  deriving DecidableEq, Repr

structure DescribeStreamSummaryInput where
  StreamName : Option String
  deriving DecidableEq, Repr

structure StreamDescriptionSummary where
  StreamARN : Option String
  StreamStatus : StreamStatus
  deriving DecidableEq, Repr

structure DescribeStreamSummaryOutput where
  StreamDescriptionSummary : Option StreamDescriptionSummary
  deriving DecidableEq, Repr

structure DeleteStreamInput where
  StreamName : Option String
  StreamARN : Option String
  deriving DecidableEq, Repr

structure DeleteStreamOutput where
  deriving DecidableEq, Repr

structure PutRecordInput where
  StreamName : Option String
  StreamARN : Option String
  PartitionKey : Option String
  Data : Bytes
  deriving DecidableEq, Repr

structure PutRecordOutput where
  SequenceNumber : Option String
  ShardId : Option String
  deriving DecidableEq, Repr

structure ListShardsInput where
  StreamName : Option String
  StreamARN : Option String
  deriving DecidableEq, Repr

structure Shard where
  ShardId : Option String
  deriving DecidableEq, Repr

structure ListShardsOutput where
  Shards : List Shard
  deriving DecidableEq, Repr

structure GetShardIteratorInput where
  ShardId : Option String
  StreamName : Option String
  StreamARN : Option String
  ShardIteratorType : ShardIteratorType
  deriving DecidableEq, Repr

structure GetShardIteratorOutput where
  ShardIterator : Option String
  deriving DecidableEq, Repr

structure GetRecordsInput where
  ShardIterator : Option String
  StreamARN : Option String
  deriving DecidableEq, Repr

structure Record where
  PartitionKey : Option String
  Data : Bytes
  deriving DecidableEq, Repr

structure GetRecordsOutput where
  Records : List Record
  NextShardIterator : Option String
  MillisBehindLatest : Option Int
  deriving DecidableEq, Repr

/-- A request sent to the service. -/
inductive Request where
  | CreateStream (i : CreateStreamInput)
  | DescribeStreamSummary (i : DescribeStreamSummaryInput)
  | DeleteStream (i : DeleteStreamInput)
  | PutRecord (i : PutRecordInput)
  | ListShards (i : ListShardsInput)
  | GetShardIterator (i : GetShardIteratorInput)
  | GetRecords (i : GetRecordsInput)
  deriving DecidableEq, Repr

/-- The service's answer to a request. -/
inductive Response where
  | CreateStream (r : Except Err CreateStreamOutput)
  | DescribeStreamSummary (r : Except Err DescribeStreamSummaryOutput)
  | DeleteStream (r : Except Err DeleteStreamOutput)
  | PutRecord (r : Except Err PutRecordOutput)
  | ListShards (r : Except Err ListShardsOutput)
  | GetShardIterator (r : Except Err GetShardIteratorOutput)
  | GetRecords (r : Except Err GetRecordsOutput)
  deriving DecidableEq

/-- One entry of the call log. -/
structure Call where
  req : Request
  resp : Response
  deriving DecidableEq

/-- The client `kc *kinesis.Client` over a service with state `σ`. -/
structure Client (σ : Type) where
  CreateStream : CreateStreamInput → σ → Except Err CreateStreamOutput × σ
  DescribeStreamSummary :
    DescribeStreamSummaryInput → σ → Except Err DescribeStreamSummaryOutput × σ
  DeleteStream : DeleteStreamInput → σ → Except Err DeleteStreamOutput × σ
  PutRecord : PutRecordInput → σ → Except Err PutRecordOutput × σ
  ListShards : ListShardsInput → σ → Except Err ListShardsOutput × σ
  GetShardIterator : GetShardIteratorInput → σ → Except Err GetShardIteratorOutput × σ
  GetRecords : GetRecordsInput → σ → Except Err GetRecordsOutput × σ

/-! ## Program state and outcomes -/

/-- One `fmt.Println` call of the program, by its operands. -/
inductive Line where
  /-- The call `fmt.Println("ITEM: ", i, " - ", *r.PartitionKey, string(r.Data))`. -/
  | ITEM (i : Nat) (PartitionKey : String) (Data : Bytes)
  /-- The call `fmt.Println("CREATED: ", arn)`. -/
  | CREATED (arn : String)
  /-- The call `fmt.Println("DELETED")`. -/
  | DELETED
  /-- The call `fmt.Println("============")`. -/
  | RULE
  deriving DecidableEq, Repr

/-- What is observable of a run: the service state, the calls made so far and
the lines printed so far. -/
structure World (σ : Type) where
  svc : σ
  calls : List Call
  out : List Line
  deriving DecidableEq

/-- The world at process start. -/
def World.init {σ : Type} (s : σ) : World σ := ⟨s, [], []⟩

/-- Log a service call and move to the service state it left. -/
def World.record {σ : Type} (w : World σ) (req : Request) (resp : Response) (s : σ) :
    World σ :=
  ⟨s, w.calls ++ [⟨req, resp⟩], w.out⟩

/-- Print one line. -/
def World.println {σ : Type} (w : World σ) (l : Line) : World σ :=
  ⟨w.svc, w.calls, w.out ++ [l]⟩

/-- Why a run stopped abnormally. -/
inductive Fault where
  | err (e : Err)
  | nilDeref
  deriving DecidableEq, Repr

/-- How a function call ends. -/
inductive Outcome (α : Type) where
  | returned (a : α)
  | panicked (f : Fault)
  | unfinished
  deriving DecidableEq, Repr

/-! ## The program -/

section Program

variable {σ : Type}

/-- Sequencing of two steps: the second runs only if the first returned. -/
def andThen {α β : Type} (r : Outcome α × World σ)
    (k : α → World σ → Outcome β × World σ) : Outcome β × World σ :=
  match r.1 with
  | .returned a => k a r.2
  | .panicked f => (.panicked f, r.2)
  | .unfinished => (.unfinished, r.2)

/-- The request literal of lines 15-21. -/
def createStream.input (streamName : String) : CreateStreamInput :=
  ⟨some streamName, some ⟨StreamModeProvisioned⟩, some 1⟩

/-- The request literal of lines 29-31 and 50-52. -/
def describeInput (streamName : String) : DescribeStreamSummaryInput :=
  ⟨some streamName⟩

/-- The polling loop of `createStream` (lines 28-38). -/
def createStream.loop (kc : Client σ) (streamName : String) :
    Nat → World σ → Outcome String × World σ
  | 0, w => (.unfinished, w)
  | fuel + 1, w =>
    let r := kc.DescribeStreamSummary (describeInput streamName) w.svc
    let w1 := w.record (.DescribeStreamSummary (describeInput streamName))
      (.DescribeStreamSummary r.1) r.2
    match r.1 with
    | .error err => (.panicked (.err err), w1)
    | .ok s =>
      match s.StreamDescriptionSummary with
      | none => (.panicked .nilDeref, w1)
      | some d =>
        if d.StreamStatus ≠ StreamStatusCreating then
          match d.StreamARN with
          | none => (.panicked .nilDeref, w1)
          | some arn => (.returned arn, w1)
        else createStream.loop kc streamName fuel w1

/-- The function `createStream` (lines 14-39). -/
def createStream (fuel : Nat) (kc : Client σ) (streamName : String) (w : World σ) :
    Outcome String × World σ :=
  let r := kc.CreateStream (createStream.input streamName) w.svc
  let w1 := w.record (.CreateStream (createStream.input streamName)) (.CreateStream r.1) r.2
  match r.1 with
  | .error err =>
    if !err.AsResourceInUse then (.panicked (.err err), w1)
    else createStream.loop kc streamName fuel w1
  | .ok _ => createStream.loop kc streamName fuel w1

/-- The request literal of lines 42-45. -/
def deleteStream.input (streamName streamARN : String) : DeleteStreamInput :=
  ⟨some streamName, some streamARN⟩

/-- The polling loop of `deleteStream` (lines 49-60). -/
def deleteStream.loop (kc : Client σ) (streamName : String) :
    Nat → World σ → Outcome Unit × World σ
  | 0, w => (.unfinished, w)
  | fuel + 1, w =>
    let r := kc.DescribeStreamSummary (describeInput streamName) w.svc
    let w1 := w.record (.DescribeStreamSummary (describeInput streamName))
      (.DescribeStreamSummary r.1) r.2
    match r.1 with
    | .error err =>
      if err.AsResourceNotFound then (.returned (), w1)
      else (.panicked (.err err), w1)
    | .ok _ => deleteStream.loop kc streamName fuel w1

/-- The function `deleteStream` (lines 41-61). -/
def deleteStream (fuel : Nat) (kc : Client σ) (streamName streamARN : String)
    (w : World σ) : Outcome Unit × World σ :=
  let r := kc.DeleteStream (deleteStream.input streamName streamARN) w.svc
  let w1 := w.record (.DeleteStream (deleteStream.input streamName streamARN))
    (.DeleteStream r.1) r.2
  match r.1 with
  | .error err => (.panicked (.err err), w1)
  | .ok _ => deleteStream.loop kc streamName fuel w1

/-- The request literal of lines 65-70 at loop index `i`. -/
def putRecords.input (streamName streamARN : String) (i : Nat) : PutRecordInput :=
  ⟨some streamName, some streamARN, some (Sprint i), bytesOf (Sprint i)⟩

/-- The body of `for i := range 10` in `putRecords`, run over the indices still
to do. -/
def putRecords.loop (kc : Client σ) (streamName streamARN : String) :
    List Nat → World σ → Outcome Unit × World σ
  | [], w => (.returned (), w)
  | i :: rest, w =>
    let r := kc.PutRecord (putRecords.input streamName streamARN i) w.svc
    let w1 := w.record (.PutRecord (putRecords.input streamName streamARN i))
      (.PutRecord r.1) r.2
    match r.1 with
    | .error err => (.panicked (.err err), w1)
    | .ok _ => putRecords.loop kc streamName streamARN rest w1

/-- The function `putRecords` (lines 63-75). -/
def putRecords (kc : Client σ) (streamName streamARN : String) (w : World σ) :
    Outcome Unit × World σ :=
  putRecords.loop kc streamName streamARN (List.range 10) w

/-- The request literal of lines 92-97. -/
def readShard.input (streamName streamARN : String) (shardID : Option String) :
    GetShardIteratorInput :=
  ⟨shardID, some streamName, some streamARN, ShardIteratorTypeTrimHorizon⟩

/-- The request literal of lines 104-107. -/
def readShard.getInput (streamARN : String) (iterator : Option String) : GetRecordsInput :=
  ⟨iterator, some streamARN⟩

/-- The loop `for i, r := range records.Records` of lines 111-113, from index `i`. -/
def readShard.print : Nat → List Record → World σ → Outcome Unit × World σ
  | _, [], w => (.returned (), w)
  | i, r :: rest, w =>
    match r.PartitionKey with
    | none => (.panicked .nilDeref, w)
    | some key => readShard.print (i + 1) rest (w.println (.ITEM i key r.Data))

/-- The loop of `readShard` (lines 103-122) with the current `iterator`. -/
def readShard.loop (kc : Client σ) (streamARN : String) :
    Nat → Option String → World σ → Outcome Unit × World σ
  | 0, _, w => (.unfinished, w)
  | fuel + 1, iterator, w =>
    let r := kc.GetRecords (readShard.getInput streamARN iterator) w.svc
    let w1 := w.record (.GetRecords (readShard.getInput streamARN iterator))
      (.GetRecords r.1) r.2
    match r.1 with
    | .error err => (.panicked (.err err), w1)
    | .ok records =>
      andThen (readShard.print 0 records.Records w1) fun _ w2 =>
        match records.NextShardIterator with
        | none => (.returned (), w2)
        | some next =>
          match records.MillisBehindLatest with
          | none => (.panicked .nilDeref, w2)
          | some lag =>
            if lag = 0 then (.returned (), w2)
            else readShard.loop kc streamARN fuel (some next) w2

/-- The function `readShard` (lines 91-123). -/
def readShard (fuel : Nat) (kc : Client σ) (streamName streamARN : String)
    (shardID : Option String) (w : World σ) : Outcome Unit × World σ :=
  let r := kc.GetShardIterator (readShard.input streamName streamARN shardID) w.svc
  let w1 := w.record (.GetShardIterator (readShard.input streamName streamARN shardID))
    (.GetShardIterator r.1) r.2
  match r.1 with
  | .error err => (.panicked (.err err), w1)
  | .ok o => readShard.loop kc streamARN fuel o.ShardIterator w1

/-- The request literal of lines 78-81. -/
def getRecords.input (streamName streamARN : String) : ListShardsInput :=
  ⟨some streamName, some streamARN⟩

/-- The loop `for _, shard := range shards.Shards` of lines 86-88. -/
def getRecords.loop (fuel : Nat) (kc : Client σ) (streamName streamARN : String) :
    List Shard → World σ → Outcome Unit × World σ
  | [], w => (.returned (), w)
  | shard :: rest, w =>
    andThen (readShard fuel kc streamName streamARN shard.ShardId w) fun _ w1 =>
      getRecords.loop fuel kc streamName streamARN rest w1

/-- The function `getRecords` (lines 77-89). -/
def getRecords (fuel : Nat) (kc : Client σ) (streamName streamARN : String)
    (w : World σ) : Outcome Unit × World σ :=
  let r := kc.ListShards (getRecords.input streamName streamARN) w.svc
  let w1 := w.record (.ListShards (getRecords.input streamName streamARN))
    (.ListShards r.1) r.2
  match r.1 with
  | .error err => (.panicked (.err err), w1)
  | .ok shards => getRecords.loop fuel kc streamName streamARN shards.Shards w1

/-- The constant `streamName` of `main` (line 127). -/
def streamName : String := "persistence-test"

/-- The function `main` (lines 125-140).  `conf` is the result of
`config.LoadDefaultConfig`, from which the client is built, and `s` is the state
of the service at process start. -/
def main (fuel : Nat) (conf : Except Err (Client σ)) (s : σ) : Outcome Unit × World σ :=
  match conf with
  | .error err => (.panicked (.err err), World.init s)
  | .ok kc =>
    andThen (createStream fuel kc streamName (World.init s)) fun arn w1 =>
    andThen (putRecords kc streamName arn (w1.println (.CREATED arn))) fun _ w2 =>
    andThen (getRecords fuel kc streamName arn w2) fun _ w3 =>
    andThen (deleteStream fuel kc streamName arn w3) fun _ w4 =>
      (.returned (), (w4.println .DELETED).println .RULE)

end Program

/-! ## A service that answers from a script -/

/-- For each operation, the sequence of its responses: entry `k` answers the
`k`-th call of that operation (counted from zero), whatever the request. -/
structure Script where
  CreateStream : Nat → Except Err CreateStreamOutput
  DescribeStreamSummary : Nat → Except Err DescribeStreamSummaryOutput
  DeleteStream : Nat → Except Err DeleteStreamOutput
  PutRecord : Nat → Except Err PutRecordOutput
  ListShards : Nat → Except Err ListShardsOutput
  GetShardIterator : Nat → Except Err GetShardIteratorOutput
  GetRecords : Nat → Except Err GetRecordsOutput

/-- How many calls of each operation the scripted service has answered. -/
structure Counters where
  create : Nat
  describe : Nat
  delete : Nat
  put : Nat
  list : Nat
  iter : Nat
  get : Nat
  deriving DecidableEq, Repr

/-- No call answered yet. -/
def Counters.zero : Counters := ⟨0, 0, 0, 0, 0, 0, 0⟩

/-- The client of the service that answers from the script `sc`. -/
def scripted (sc : Script) : Client Counters where
  CreateStream _ c := (sc.CreateStream c.create, { c with create := c.create + 1 })
  DescribeStreamSummary _ c :=
    (sc.DescribeStreamSummary c.describe, { c with describe := c.describe + 1 })
  DeleteStream _ c := (sc.DeleteStream c.delete, { c with delete := c.delete + 1 })
  PutRecord _ c := (sc.PutRecord c.put, { c with put := c.put + 1 })
  ListShards _ c := (sc.ListShards c.list, { c with list := c.list + 1 })
  GetShardIterator _ c := (sc.GetShardIterator c.iter, { c with iter := c.iter + 1 })
  GetRecords _ c := (sc.GetRecords c.get, { c with get := c.get + 1 })

/-! ## Expected logs -/

/-- The log entry of the create request of `createStream`. -/
def createStream.call {σ : Type} (kc : Client σ) (name : String) (w : World σ) : Call :=
  ⟨.CreateStream (createStream.input name),
    .CreateStream (kc.CreateStream (createStream.input name) w.svc).1⟩

/-- The world right after the create request of `createStream`. -/
def createStream.afterCreate {σ : Type} (kc : Client σ) (name : String) (w : World σ) :
    World σ :=
  w.record (.CreateStream (createStream.input name))
    (.CreateStream (kc.CreateStream (createStream.input name) w.svc).1)
    (kc.CreateStream (createStream.input name) w.svc).2

/-- The log entry of the describe call that the script `sc` answers with its
entry `k`. -/
def describeCall (sc : Script) (name : String) (k : Nat) : Call :=
  ⟨.DescribeStreamSummary (describeInput name),
    .DescribeStreamSummary (sc.DescribeStreamSummary k)⟩

/-- The world in which `createStream` ends when its polling loop stops at its
`(n+1)`-th describe call against the script `sc`: one create call and `n+1`
describe calls were logged, nothing was printed. -/
def createStream.final (sc : Script) (name : String) (w : World Counters) (n : Nat) :
    World Counters :=
  ⟨{ w.svc with create := w.svc.create + 1, describe := w.svc.describe + (n + 1) },
    w.calls ++ createStream.call (scripted sc) name w ::
      (List.range' w.svc.describe (n + 1)).map (describeCall sc name),
    w.out⟩

/-- The log entry of the delete request of `deleteStream`. -/
def deleteStream.call {σ : Type} (kc : Client σ) (name arn : String) (w : World σ) : Call :=
  ⟨.DeleteStream (deleteStream.input name arn),
    .DeleteStream (kc.DeleteStream (deleteStream.input name arn) w.svc).1⟩

/-- The world in which `deleteStream` ends when its delete request fails: the
delete call was logged and no describe call was made. -/
def deleteStream.failed (sc : Script) (name arn : String) (w : World Counters) :
    World Counters :=
  ⟨{ w.svc with delete := w.svc.delete + 1 },
    w.calls ++ [deleteStream.call (scripted sc) name arn w], w.out⟩

/-- The world in which `deleteStream` ends when its polling loop stops at its
`(n+1)`-th describe call against the script `sc`. -/
def deleteStream.final (sc : Script) (name arn : String) (w : World Counters) (n : Nat) :
    World Counters :=
  ⟨{ w.svc with delete := w.svc.delete + 1, describe := w.svc.describe + (n + 1) },
    w.calls ++ deleteStream.call (scripted sc) name arn w ::
      (List.range' w.svc.describe (n + 1)).map (describeCall sc name),
    w.out⟩

/-- The log entry of the write of index `i` when the script `sc` answers it with
its entry `base + i`. -/
def putCall (sc : Script) (name arn : String) (base i : Nat) : Call :=
  ⟨.PutRecord (putRecords.input name arn i), .PutRecord (sc.PutRecord (base + i))⟩

/-- The world after `putRecords` has issued its first `k` writes against the
script `sc`: one put call per index `0, ..., k-1` in this order, nothing
printed. -/
def putRecords.final (sc : Script) (name arn : String) (w : World Counters) (k : Nat) :
    World Counters :=
  ⟨{ w.svc with put := w.svc.put + k },
    w.calls ++ (List.range k).map (putCall sc name arn w.svc.put), w.out⟩

/-- The decimal texts of the ten loop indices. -/
def putRecords.texts : List String := ["0", "1", "2", "3", "4", "5", "6", "7", "8", "9"]

/-- The record with partition key `p.1` and payload `p.2`. -/
def Record.ofPair (p : String × Bytes) : Record := ⟨some p.1, p.2⟩

/-- The lines printed for one batch of records given as (partition key, payload)
pairs: one per record, in batch order, with the record's index within the batch
counted from `i`. -/
def itemLines (i : Nat) (batch : List (String × Bytes)) : List Line :=
  (batch.enumFrom i).map fun p => .ITEM p.1 p.2.1 p.2.2

/-- The iterator of the `k`-th get-records call of a shard loop that starts with
the iterator `first` and receives the responses `resp 0`, `resp 1`, ...: the
next iterator of the response before it. -/
def iteratorAt (first : Option String) (resp : Nat → GetRecordsOutput) : Nat → Option String
  | 0 => first
  | k + 1 => (resp k).NextShardIterator

/-- The log entry of the `k`-th get-records call of such a shard loop. -/
def getCall (arn : String) (first : Option String) (resp : Nat → GetRecordsOutput)
    (k : Nat) : Call :=
  ⟨.GetRecords (readShard.getInput arn (iteratorAt first resp k)), .GetRecords (.ok (resp k))⟩

/-- The log entry of the get-shard-iterator request of `readShard`. -/
def readShard.call {σ : Type} (kc : Client σ) (name arn : String) (shardID : Option String)
    (w : World σ) : Call :=
  ⟨.GetShardIterator (readShard.input name arn shardID),
    .GetShardIterator (kc.GetShardIterator (readShard.input name arn shardID) w.svc).1⟩

/-- The world in which `readShard` ends when its loop stops at its `(n+1)`-th
get-records call against the script `sc`: one get-shard-iterator call and `n+1`
get-records calls were logged, and the lines of the `n+1` batches were printed. -/
def readShard.final (sc : Script) (name arn : String) (shardID : Option String)
    (w : World Counters) (first : Option String) (resp : Nat → GetRecordsOutput)
    (batch : Nat → List (String × Bytes)) (n : Nat) : World Counters :=
  ⟨{ w.svc with iter := w.svc.iter + 1, get := w.svc.get + (n + 1) },
    w.calls ++ readShard.call (scripted sc) name arn shardID w ::
      (List.range (n + 1)).map (getCall arn first resp),
    w.out ++ (List.range (n + 1)).flatMap fun k => itemLines 0 (batch k)⟩

/-- The request is a get-records request. -/
def Request.isGetRecords : Request → Bool
  | .GetRecords _ => true
  | _ => false

/-! ## Phases of a run -/

/-- The request belongs to the create phase for the stream `name`: the create
request or a describe request of `createStream`. -/
def Request.inCreate (name : String) : Request → Bool
  | .CreateStream i => decide (i = createStream.input name)
  | .DescribeStreamSummary i => decide (i = describeInput name)
  | _ => false

/-- The request belongs to the write phase: a put-record request carrying the
stream name `name` and the ARN `arn`. -/
def Request.inWrite (name arn : String) : Request → Bool
  | .PutRecord i => decide (i.StreamName = some name ∧ i.StreamARN = some arn)
  | _ => false

/-- The request belongs to the read phase: a list-shards, get-shard-iterator or
get-records request carrying the ARN `arn` (and the stream name `name` where the
request has one). -/
def Request.inRead (name arn : String) : Request → Bool
  | .ListShards i => decide (i = getRecords.input name arn)
  | .GetShardIterator i => decide (i.StreamName = some name ∧ i.StreamARN = some arn ∧
      i.ShardIteratorType = ShardIteratorTypeTrimHorizon)
  | .GetRecords i => decide (i.StreamARN = some arn)
  | _ => false

/-- The request belongs to the delete phase: the delete request carrying `name`
and `arn`, or a describe request of `deleteStream`. -/
def Request.inDelete (name arn : String) : Request → Bool
  | .DeleteStream i => decide (i = deleteStream.input name arn)
  | .DescribeStreamSummary i => decide (i = describeInput name)
  | _ => false

/-- The request is a delete request. -/
def Request.isDeleteStream : Request → Bool
  | .DeleteStream _ => true
  | _ => false

/-- The request is the describe request for the stream `name`. -/
def Request.isDescribeOf (name : String) : Request → Bool
  | .DescribeStreamSummary i => decide (i = describeInput name)
  | _ => false

/-- The request is one of those issued by `putRecords` and `getRecords`. -/
def Request.isData : Request → Bool
  | .PutRecord _ => true
  | .ListShards _ => true
  | .GetShardIterator _ => true
  | .GetRecords _ => true
  | _ => false

/-- The world `w2` comes from `w1` by service calls whose requests all satisfy
`P`, and by printing. -/
def World.Extends {σ : Type} (P : Request → Bool) (w1 w2 : World σ) : Prop :=
  ∃ L : List Call, w2.calls = w1.calls ++ L ∧ ∀ c ∈ L, P c.req = true

/-- The create phase of `main` (line 133). -/
def main.created {σ : Type} (fuel : Nat) (kc : Client σ) (s : σ) : Outcome String × World σ :=
  createStream fuel kc streamName (World.init s)

/-- The write phase of `main` (lines 134-135), entered in the world `w1` in which
`createStream` returned `arn`. -/
def main.written {σ : Type} (kc : Client σ) (arn : String) (w1 : World σ) :
    Outcome Unit × World σ :=
  putRecords kc streamName arn (w1.println (.CREATED arn))

/-- The read phase of `main` (line 136), entered in the world `w2` in which
`putRecords` returned. -/
def main.read {σ : Type} (fuel : Nat) (kc : Client σ) (arn : String) (w2 : World σ) :
    Outcome Unit × World σ :=
  getRecords fuel kc streamName arn w2

/-- The delete phase of `main` (line 137), entered in the world `w3` in which
`getRecords` returned. -/
def main.deleted {σ : Type} (fuel : Nat) (kc : Client σ) (arn : String) (w3 : World σ) :
    Outcome Unit × World σ :=
  deleteStream fuel kc streamName arn w3

/-! ## Concrete services -/

/-- A service whose stream `persistence-test` exists and is being deleted: the
create request is refused with `ResourceInUseException`, the stream is described
as `DELETING`, and every write is refused. -/
def deletingScript : Script where
  CreateStream _ := .error (.Wrap "CreateStream" (.ResourceInUseException "stream exists"))
  DescribeStreamSummary _ := .ok ⟨some ⟨some "arn:stream/persistence-test", StreamStatusDeleting⟩⟩
  DeleteStream _ := .error (.ResourceInUseException "stream is being deleted")
  PutRecord _ := .error (.ResourceNotFoundException "stream is being deleted")
  ListShards _ := .error (.ResourceNotFoundException "stream is being deleted")
  GetShardIterator _ := .error (.ResourceNotFoundException "stream is being deleted")
  GetRecords _ := .error (.ResourceNotFoundException "stream is being deleted")

/-- The state of a service that holds one stream with a single shard: whether
the stream exists, and the records of its shard, oldest first. -/
structure Stream where
  live : Bool
  records : List Record
  deriving DecidableEq, Repr

/-- The ARN of the stream of the single-shard service. -/
def Stream.arn : String := "arn:aws:kinesis:::stream/persistence-test"

/-- The id of its only shard. -/
def Stream.shardId : String := "shardId-000000000000"

/-- The iterator token for the position `pos` of the shard: `pos` dots.  The
position of a token is its length. -/
def Stream.cursor (pos : Nat) : String := String.mk (List.replicate pos '.')

/-- The error of a request that names a stream which does not exist. -/
def Stream.notFound : Err := .ResourceNotFoundException "stream not found"

/-- The client of a service that holds one stream with a single shard which is
an append-only log: a write appends its record at the end, and a read at an
iterator returns at most `limit` records from the iterator's position on, in
log order, with the iterator just behind them and, as lag, the number of
records still behind that iterator (zero exactly at the tail). -/
def logService (limit : Nat) : Client Stream where
  CreateStream _ s :=
    if s.live then (.error (.ResourceInUseException "stream exists"), s)
    else (.ok ⟨⟩, ⟨true, []⟩)
  DescribeStreamSummary _ s :=
    if s.live then (.ok ⟨some ⟨some Stream.arn, StreamStatusActive⟩⟩, s)
    else (.error Stream.notFound, s)
  DeleteStream _ s :=
    if s.live then (.ok ⟨⟩, ⟨false, []⟩) else (.error Stream.notFound, s)
  PutRecord i s :=
    if s.live then
      (.ok ⟨some (toString s.records.length), some Stream.shardId⟩,
        ⟨true, s.records ++ [⟨i.PartitionKey, i.Data⟩]⟩)
    else (.error Stream.notFound, s)
  ListShards _ s :=
    if s.live then (.ok ⟨[⟨some Stream.shardId⟩]⟩, s) else (.error Stream.notFound, s)
  GetShardIterator _ s :=
    if s.live then (.ok ⟨some (Stream.cursor 0)⟩, s) else (.error Stream.notFound, s)
  GetRecords i s :=
    if s.live then
      match i.ShardIterator with
      | none => (.error (.Other "InvalidArgumentException"), s)
      | some token =>
        (.ok ⟨(s.records.drop token.length).take limit,
          some (Stream.cursor (token.length + ((s.records.drop token.length).take limit).length)),
          some ((s.records.length -
            (token.length + ((s.records.drop token.length).take limit).length) : Nat) : Int)⟩,
          s)
    else (.error Stream.notFound, s)

/-- The ten records written by `putRecords`, as (partition key, payload) pairs. -/
def putRecords.pairs : List (String × Bytes) := putRecords.texts.map fun t => (t, bytesOf t)

/-- The lines printed for the records `l` of a shard read in batches of `limit`
records, the first of them at position `n` of the shard: each record appears
once, in log order, with its index within its batch. -/
def batchedLines (limit n : Nat) (l : List (String × Bytes)) : List Line :=
  (l.enumFrom n).map fun p => .ITEM (p.1 % limit) p.2.1 p.2.2

/-- The batches of a sample shard read: two records, then one, then none. -/
def sampleBatch : Nat → List (String × Bytes)
  | 0 => [("0", bytesOf "0"), ("1", bytesOf "1")]
  | 1 => [("2", bytesOf "2")]
  | _ => []

/-- The get-records responses of the sample service: the first carries a lag of
250 ms, the later ones are at the tail. -/
def sampleRecords (k : Nat) : GetRecordsOutput :=
  ⟨(sampleBatch k).map Record.ofPair, some ("iterator-" ++ toString (k + 1)),
    some (if k = 0 then 250 else 0)⟩

/-- The ARN of the sample service's stream. -/
def sampleARN : String := "arn:aws:kinesis:::stream/persistence-test"

/-- A sample service: the stream exists already, is described as `CREATING`
twice and then as `ACTIVE`, and is gone at the fourth describe call; writes
succeed; the only shard is read in two batches. -/
def sampleScript : Script where
  CreateStream _ := .error (.Wrap "CreateStream" (.ResourceInUseException "stream exists"))
  DescribeStreamSummary k :=
    if k < 2 then .ok ⟨some ⟨some sampleARN, StreamStatusCreating⟩⟩
    else if k = 2 then .ok ⟨some ⟨some sampleARN, StreamStatusActive⟩⟩
    else .error (.Wrap "DescribeStreamSummary" (.ResourceNotFoundException "no stream"))
  DeleteStream _ := .ok ⟨⟩
  PutRecord k := .ok ⟨some (toString k), some "shardId-000000000000"⟩
  ListShards _ := .ok ⟨[⟨some "shardId-000000000000"⟩]⟩
  GetShardIterator _ := .ok ⟨some "iterator-0"⟩
  GetRecords k := .ok (sampleRecords k)

/-- The sample service with a fourth write (index 3) that is throttled. -/
def throttledScript : Script :=
  { sampleScript with
    PutRecord := fun k =>
      if k < 3 then .ok ⟨some (toString k), some "shardId-000000000000"⟩
      else .error (.Wrap "PutRecord" (.Other "ProvisionedThroughputExceededException")) }

/-! ## Properties -/

section Properties

variable {σ : Type}

/-! ### `createStream` -/

theorem createStream_loop_calls_le (kc : Client σ) (name : String) :
    ∀ (fuel : Nat) (w : World σ),
      w.calls.length ≤ (createStream.loop kc name fuel w).2.calls.length := by
  intro fuel
  induction fuel with
  | zero => intro w; simp [createStream.loop]
  | succ n ih =>
    intro w
    have h := ih (w.record (.DescribeStreamSummary (describeInput name))
      (.DescribeStreamSummary (kc.DescribeStreamSummary (describeInput name) w.svc).1)
      (kc.DescribeStreamSummary (describeInput name) w.svc).2)
    simp only [createStream.loop]
    split
    · simp [World.record]
    · split
      · simp [World.record]
      · split
        · split <;> simp [World.record]
        · simp [World.record] at h ⊢; omega

theorem createStream_loop_panicked_lt (kc : Client σ) (name : String)
    (fuel : Nat) (w : World σ) (f : Fault)
    (h : (createStream.loop kc name fuel w).1 = .panicked f) :
    w.calls.length < (createStream.loop kc name fuel w).2.calls.length := by
  cases fuel with
  | zero => simp [createStream.loop] at h
  | succ n =>
    have hle := createStream_loop_calls_le kc name n (w.record (.DescribeStreamSummary (describeInput name))
      (.DescribeStreamSummary (kc.DescribeStreamSummary (describeInput name) w.svc).1)
      (kc.DescribeStreamSummary (describeInput name) w.svc).2)
    simp only [createStream.loop]
    split
    · simp [World.record]
    · split
      · simp [World.record]
      · split
        · split <;> simp [World.record]
        · simp [World.record] at hle ⊢; omega
/-- C1. For every result of the create request, `createStream` ends in a fault
having logged the create call and no describe call exactly when the request
failed with an error that `errors.As` does not recognise as a
`ResourceInUseException`; that fault is the error itself.  When the request
succeeded or failed with `ResourceInUseException` (a second call for a stream
that exists), `createStream` is its describe polling loop run in the world right
after the create call. -/
theorem createStream_create_step (fuel : Nat) (kc : Client σ) (name : String) (w : World σ) :
    ((∃ f, (createStream fuel kc name w).1 = .panicked f ∧
          (createStream fuel kc name w).2.calls = w.calls ++ [createStream.call kc name w]) ↔
        ∃ e, (kc.CreateStream (createStream.input name) w.svc).1 = .error e ∧
          e.AsResourceInUse = false) ∧
    (∀ e, (kc.CreateStream (createStream.input name) w.svc).1 = .error e →
        e.AsResourceInUse = false →
        createStream fuel kc name w =
          (.panicked (.err e), createStream.afterCreate kc name w)) ∧
    (((∃ o, (kc.CreateStream (createStream.input name) w.svc).1 = .ok o) ∨
        ∃ e, (kc.CreateStream (createStream.input name) w.svc).1 = .error e ∧
          e.AsResourceInUse = true) →
        createStream fuel kc name w =
          createStream.loop kc name fuel (createStream.afterCreate kc name w)) := by
  have hfault : ∀ e, (kc.CreateStream (createStream.input name) w.svc).1 = .error e →
      e.AsResourceInUse = false →
      createStream fuel kc name w =
        (.panicked (.err e), createStream.afterCreate kc name w) := by
    intro e he hriu
    simp [createStream, createStream.afterCreate, he, hriu]
  have hgo : ((∃ o, (kc.CreateStream (createStream.input name) w.svc).1 = .ok o) ∨
        ∃ e, (kc.CreateStream (createStream.input name) w.svc).1 = .error e ∧
          e.AsResourceInUse = true) →
        createStream fuel kc name w =
          createStream.loop kc name fuel (createStream.afterCreate kc name w) := by
    rintro (⟨o, ho⟩ | ⟨e, he, hriu⟩)
    · simp [createStream, createStream.afterCreate, ho]
    · simp [createStream, createStream.afterCreate, he, hriu]
  refine ⟨⟨?_, ?_⟩, hfault, hgo⟩
  · rintro ⟨f, hf, hcalls⟩
    cases hr : (kc.CreateStream (createStream.input name) w.svc).1 with
    | error e =>
      cases hriu : e.AsResourceInUse with
      | false => exact ⟨e, rfl, hriu⟩
      | true =>
        exfalso
        have heq := hgo (Or.inr ⟨e, hr, hriu⟩)
        rw [heq] at hf hcalls
        have hlt := createStream_loop_panicked_lt kc name fuel _ f hf
        rw [hcalls] at hlt
        simp [createStream.afterCreate, World.record] at hlt
    | ok o =>
      exfalso
      have heq := hgo (Or.inl ⟨o, hr⟩)
      rw [heq] at hf hcalls
      have hlt := createStream_loop_panicked_lt kc name fuel _ f hf
      rw [hcalls] at hlt
      simp [createStream.afterCreate, World.record] at hlt
  · rintro ⟨e, he, hriu⟩
    refine ⟨.err e, ?_, ?_⟩
    · rw [hfault e he hriu]
    · rw [hfault e he hriu]
      simp [createStream.afterCreate, World.record, createStream.call]
theorem createStream_loop_step_scripted (sc : Script) (name : String) (fuel : Nat)
    (w : World Counters) :
    createStream.loop (scripted sc) name (fuel + 1) w =
      match sc.DescribeStreamSummary w.svc.describe with
      | .error err => (.panicked (.err err),
          ⟨{ w.svc with describe := w.svc.describe + 1 },
            w.calls ++ [describeCall sc name w.svc.describe], w.out⟩)
      | .ok s =>
        match s.StreamDescriptionSummary with
        | none => (.panicked .nilDeref,
            ⟨{ w.svc with describe := w.svc.describe + 1 },
              w.calls ++ [describeCall sc name w.svc.describe], w.out⟩)
        | some d =>
          if d.StreamStatus ≠ StreamStatusCreating then
            match d.StreamARN with
            | none => (.panicked .nilDeref,
                ⟨{ w.svc with describe := w.svc.describe + 1 },
                  w.calls ++ [describeCall sc name w.svc.describe], w.out⟩)
            | some arn => (.returned arn,
                ⟨{ w.svc with describe := w.svc.describe + 1 },
                  w.calls ++ [describeCall sc name w.svc.describe], w.out⟩)
          else createStream.loop (scripted sc) name fuel
            ⟨{ w.svc with describe := w.svc.describe + 1 },
              w.calls ++ [describeCall sc name w.svc.describe], w.out⟩ := by
  rfl

theorem createStream_loop_skip (sc : Script) (name : String) (fuel : Nat) :
    ∀ (n : Nat) (w : World Counters),
      (∀ k, k < n → ∃ d, sc.DescribeStreamSummary (w.svc.describe + k) = .ok ⟨some d⟩ ∧
        d.StreamStatus = StreamStatusCreating) →
      createStream.loop (scripted sc) name (n + fuel) w =
        createStream.loop (scripted sc) name fuel
          ⟨{ w.svc with describe := w.svc.describe + n },
            w.calls ++ (List.range' w.svc.describe n).map (describeCall sc name), w.out⟩ := by
  intro n
  induction n with
  | zero => intro w _; simp
  | succ n ih =>
    intro w h
    obtain ⟨d, hd, hst⟩ := h 0 (Nat.succ_pos n)
    rw [Nat.add_zero] at hd
    have hfuel : n + 1 + fuel = (n + fuel) + 1 := by omega
    rw [hfuel, createStream_loop_step_scripted, hd]
    simp only [hst, ne_eq, not_true_eq_false, if_false]
    rw [ih]
    · simp [List.range'_succ, Nat.add_assoc, Nat.add_comm 1 n]
    · intro k hk
      have := h (k + 1) (by omega)
      simpa [Nat.add_assoc, Nat.add_comm 1 k] using this

theorem createStream_scripted_eq_loop (sc : Script) (name : String) (w : World Counters)
    (fuel : Nat)
    (hcreate : (∃ o, sc.CreateStream w.svc.create = .ok o) ∨
      ∃ e, sc.CreateStream w.svc.create = .error e ∧ e.AsResourceInUse = true) :
    createStream fuel (scripted sc) name w =
      createStream.loop (scripted sc) name fuel
        ⟨{ w.svc with create := w.svc.create + 1 },
          w.calls ++ [createStream.call (scripted sc) name w], w.out⟩ := by
  rcases hcreate with ⟨o, ho⟩ | ⟨e, he, hriu⟩
  · simp [createStream, scripted, ho, World.record, createStream.call]
  · simp [createStream, scripted, he, hriu, World.record, createStream.call]

/-- C2. Against any scripted sequence of describe responses, once the create
step has passed: if the first `n` describe responses are successes with status
`CREATING`, and the polling bound exceeds `n`, then
* if response `n+1` is a success with another status that carries the ARN `arn`,
  `createStream` returns `arn`, and
* if response `n+1` is an error `e`, `createStream` panics with `e`,
in both cases in the world `createStream.final`, whose log holds the create call
followed by exactly `n+1` describe calls. -/
theorem createStream_poll_result (sc : Script) (name : String) (w : World Counters)
    (n fuel : Nat) (hfuel : n < fuel)
    (hcreate : (∃ o, sc.CreateStream w.svc.create = .ok o) ∨
      ∃ e, sc.CreateStream w.svc.create = .error e ∧ e.AsResourceInUse = true)
    (hpre : ∀ k, k < n → ∃ d,
      sc.DescribeStreamSummary (w.svc.describe + k) = .ok ⟨some d⟩ ∧
        d.StreamStatus = StreamStatusCreating) :
    (∀ d arn, sc.DescribeStreamSummary (w.svc.describe + n) = .ok ⟨some d⟩ →
        d.StreamStatus ≠ StreamStatusCreating → d.StreamARN = some arn →
        createStream fuel (scripted sc) name w =
          (.returned arn, createStream.final sc name w n)) ∧
    (∀ e, sc.DescribeStreamSummary (w.svc.describe + n) = .error e →
        createStream fuel (scripted sc) name w =
          (.panicked (.err e), createStream.final sc name w n)) := by
  obtain ⟨m, rfl⟩ : ∃ m, fuel = n + (m + 1) := ⟨fuel - n - 1, by omega⟩
  have hrun := createStream_scripted_eq_loop sc name w (n + (m + 1)) hcreate
  rw [createStream_loop_skip sc name (m + 1) n
      ⟨{ w.svc with create := w.svc.create + 1 },
        w.calls ++ [createStream.call (scripted sc) name w], w.out⟩ hpre,
    createStream_loop_step_scripted] at hrun
  constructor
  · intro d arn hd hst harn
    rw [hrun]
    simp only [hd, hst, harn, ne_eq, not_false_eq_true, if_true]
    simp [createStream.final, List.range'_concat, Nat.add_assoc]
  · intro e he
    rw [hrun]
    simp only [he]
    simp [createStream.final, List.range'_concat, Nat.add_assoc]

/-! ### `deleteStream` -/

theorem deleteStream_loop_step_scripted (sc : Script) (name : String) (fuel : Nat)
    (w : World Counters) :
    deleteStream.loop (scripted sc) name (fuel + 1) w =
      match sc.DescribeStreamSummary w.svc.describe with
      | .error err =>
        if err.AsResourceNotFound then (.returned (),
          ⟨{ w.svc with describe := w.svc.describe + 1 },
            w.calls ++ [describeCall sc name w.svc.describe], w.out⟩)
        else (.panicked (.err err),
          ⟨{ w.svc with describe := w.svc.describe + 1 },
            w.calls ++ [describeCall sc name w.svc.describe], w.out⟩)
      | .ok _ => deleteStream.loop (scripted sc) name fuel
          ⟨{ w.svc with describe := w.svc.describe + 1 },
            w.calls ++ [describeCall sc name w.svc.describe], w.out⟩ := by
  rfl

theorem deleteStream_loop_skip (sc : Script) (name : String) (fuel : Nat) :
    ∀ (n : Nat) (w : World Counters),
      (∀ k, k < n → ∃ s, sc.DescribeStreamSummary (w.svc.describe + k) = .ok s) →
      deleteStream.loop (scripted sc) name (n + fuel) w =
        deleteStream.loop (scripted sc) name fuel
          ⟨{ w.svc with describe := w.svc.describe + n },
            w.calls ++ (List.range' w.svc.describe n).map (describeCall sc name), w.out⟩ := by
  intro n
  induction n with
  | zero => intro w _; simp
  | succ n ih =>
    intro w h
    obtain ⟨d, hd⟩ := h 0 (Nat.succ_pos n)
    rw [Nat.add_zero] at hd
    have hfuel : n + 1 + fuel = (n + fuel) + 1 := by omega
    rw [hfuel, deleteStream_loop_step_scripted, hd]
    simp only
    rw [ih]
    · simp [List.range'_succ, Nat.add_assoc, Nat.add_comm 1 n]
    · intro k hk
      have := h (k + 1) (by omega)
      simpa [Nat.add_assoc, Nat.add_comm 1 k] using this

theorem deleteStream_loop_returned (sc : Script) (name : String) :
    ∀ (fuel : Nat) (w : World Counters),
      (deleteStream.loop (scripted sc) name fuel w).1 = .returned () →
      ∃ n e, (∀ k, k < n → ∃ s, sc.DescribeStreamSummary (w.svc.describe + k) = .ok s) ∧
        sc.DescribeStreamSummary (w.svc.describe + n) = .error e ∧
        e.AsResourceNotFound = true := by
  intro fuel
  induction fuel with
  | zero => intro w h; simp [deleteStream.loop] at h
  | succ fuel ih =>
    intro w h
    rw [deleteStream_loop_step_scripted] at h
    cases hr : sc.DescribeStreamSummary w.svc.describe with
    | error e =>
      rw [hr] at h
      cases hrnf : e.AsResourceNotFound with
      | true => exact ⟨0, e, by intro k hk; omega, by simpa using hr, hrnf⟩
      | false => simp [hrnf] at h
    | ok s =>
      rw [hr] at h
      obtain ⟨n, e, hok, herr, hrnf⟩ := ih _ h
      refine ⟨n + 1, e, ?_, ?_, hrnf⟩
      · intro k hk
        cases k with
        | zero => exact ⟨s, by simpa using hr⟩
        | succ k =>
          have := hok k (by omega)
          simpa [Nat.add_assoc, Nat.add_comm 1 k] using this
      · simpa [Nat.add_assoc, Nat.add_comm 1 n] using herr

/-- C8. Against any scripted service, `deleteStream`
* panics with `e`, having logged the delete call and no describe call, when the
  delete request fails with `e`;
* when the delete request succeeds, the first `n` describe responses are
  successes (of any content) and response `n+1` is an error `e`, stops at that
  response, after exactly `n+1` describe calls: it returns if `e` is a
  `ResourceNotFoundException` and panics with `e` otherwise;
* returns, for some polling bound, exactly when the delete request succeeds and
  the describe responses are successes up to a first error that is a
  `ResourceNotFoundException`. -/
theorem deleteStream_result (sc : Script) (name arn : String) (w : World Counters) :
    (∀ fuel e, sc.DeleteStream w.svc.delete = .error e →
        deleteStream fuel (scripted sc) name arn w =
          (.panicked (.err e), deleteStream.failed sc name arn w)) ∧
    (∀ fuel o n e, sc.DeleteStream w.svc.delete = .ok o → n < fuel →
        (∀ k, k < n → ∃ s, sc.DescribeStreamSummary (w.svc.describe + k) = .ok s) →
        sc.DescribeStreamSummary (w.svc.describe + n) = .error e →
        deleteStream fuel (scripted sc) name arn w =
          (if e.AsResourceNotFound then .returned () else .panicked (.err e),
            deleteStream.final sc name arn w n)) ∧
    ((∃ fuel, (deleteStream fuel (scripted sc) name arn w).1 = .returned ()) ↔
      (∃ o, sc.DeleteStream w.svc.delete = .ok o) ∧
        ∃ n e, (∀ k, k < n → ∃ s, sc.DescribeStreamSummary (w.svc.describe + k) = .ok s) ∧
          sc.DescribeStreamSummary (w.svc.describe + n) = .error e ∧
          e.AsResourceNotFound = true) := by
  have hfail : ∀ fuel e, sc.DeleteStream w.svc.delete = .error e →
        deleteStream fuel (scripted sc) name arn w =
          (.panicked (.err e), deleteStream.failed sc name arn w) := by
    intro fuel e he
    simp [deleteStream, scripted, he, World.record, deleteStream.failed, deleteStream.call]
  have hpoll : ∀ fuel o n e, sc.DeleteStream w.svc.delete = .ok o → n < fuel →
        (∀ k, k < n → ∃ s, sc.DescribeStreamSummary (w.svc.describe + k) = .ok s) →
        sc.DescribeStreamSummary (w.svc.describe + n) = .error e →
        deleteStream fuel (scripted sc) name arn w =
          (if e.AsResourceNotFound then .returned () else .panicked (.err e),
            deleteStream.final sc name arn w n) := by
    intro fuel o n e ho hfuel hok herr
    obtain ⟨m, rfl⟩ : ∃ m, fuel = n + (m + 1) := ⟨fuel - n - 1, by omega⟩
    have hrun : deleteStream (n + (m + 1)) (scripted sc) name arn w =
        deleteStream.loop (scripted sc) name (n + (m + 1))
          ⟨{ w.svc with delete := w.svc.delete + 1 },
            w.calls ++ [deleteStream.call (scripted sc) name arn w], w.out⟩ := by
      simp [deleteStream, scripted, ho, World.record, deleteStream.call]
    rw [deleteStream_loop_skip sc name (m + 1) n
        ⟨{ w.svc with delete := w.svc.delete + 1 },
          w.calls ++ [deleteStream.call (scripted sc) name arn w], w.out⟩ hok,
      deleteStream_loop_step_scripted] at hrun
    rw [hrun]
    simp only [herr]
    cases e.AsResourceNotFound <;>
      simp [deleteStream.final, List.range'_concat, Nat.add_assoc]
  refine ⟨hfail, hpoll, ⟨?_, ?_⟩⟩
  · rintro ⟨fuel, hret⟩
    cases hd : sc.DeleteStream w.svc.delete with
    | error e => rw [hfail fuel e hd] at hret; simp at hret
    | ok o =>
      refine ⟨⟨o, rfl⟩, ?_⟩
      have hrun : deleteStream fuel (scripted sc) name arn w =
          deleteStream.loop (scripted sc) name fuel
            ⟨{ w.svc with delete := w.svc.delete + 1 },
              w.calls ++ [deleteStream.call (scripted sc) name arn w], w.out⟩ := by
        simp [deleteStream, scripted, hd, World.record, deleteStream.call]
      rw [hrun] at hret
      have h := deleteStream_loop_returned sc name fuel
        ⟨{ w.svc with delete := w.svc.delete + 1 },
          w.calls ++ [deleteStream.call (scripted sc) name arn w], w.out⟩ hret
      exact h
  · rintro ⟨⟨o, ho⟩, n, e, hok, herr, hrnf⟩
    exact ⟨n + 1, by rw [hpoll (n + 1) o n e ho (Nat.lt_succ_self n) hok herr, hrnf]; rfl⟩

/-! ### `putRecords` -/

theorem putRecords_loop_step_scripted (sc : Script) (name arn : String) (i : Nat)
    (rest : List Nat) (w : World Counters) :
    putRecords.loop (scripted sc) name arn (i :: rest) w =
      match sc.PutRecord w.svc.put with
      | .error err => (.panicked (.err err),
          ⟨{ w.svc with put := w.svc.put + 1 },
            w.calls ++ [⟨.PutRecord (putRecords.input name arn i),
              .PutRecord (sc.PutRecord w.svc.put)⟩], w.out⟩)
      | .ok _ => putRecords.loop (scripted sc) name arn rest
          ⟨{ w.svc with put := w.svc.put + 1 },
            w.calls ++ [⟨.PutRecord (putRecords.input name arn i),
              .PutRecord (sc.PutRecord w.svc.put)⟩], w.out⟩ := by
  rfl

theorem putRecords_loop_skip (sc : Script) (name arn : String) (rest : List Nat) :
    ∀ (k i : Nat) (w : World Counters),
      (∀ j, j < k → ∃ o, sc.PutRecord (w.svc.put + j) = .ok o) →
      putRecords.loop (scripted sc) name arn (List.range' i k ++ rest) w =
        putRecords.loop (scripted sc) name arn rest
          ⟨{ w.svc with put := w.svc.put + k },
            w.calls ++ (List.range k).map (fun j =>
              ⟨.PutRecord (putRecords.input name arn (i + j)),
                .PutRecord (sc.PutRecord (w.svc.put + j))⟩), w.out⟩ := by
  intro k
  induction k with
  | zero => intro i w _; simp
  | succ k ih =>
    intro i w h
    obtain ⟨o, ho⟩ := h 0 (Nat.succ_pos k)
    rw [Nat.add_zero] at ho
    rw [List.range'_succ, List.cons_append, putRecords_loop_step_scripted, ho]
    simp only
    rw [ih]
    · simp [List.range_succ_eq_map, Nat.add_assoc, Nat.add_comm 1, Function.comp_def, ho]
    · intro j hj
      have := h (j + 1) (by omega)
      simpa [Nat.add_assoc, Nat.add_comm 1 j] using this

theorem putRecords_requests_eq (name arn : String) :
    (List.range 10).map (fun i => Request.PutRecord (putRecords.input name arn i)) =
      putRecords.texts.map fun t => Request.PutRecord ⟨some name, some arn, some t, bytesOf t⟩ := by
  rfl

/-- C4. When the ten writes that the scripted service answers next all succeed,
`putRecords` returns in the world `putRecords.final ... 10`: its log grew by
exactly ten put-record calls and nothing else.  The requests of these calls are,
in this order, those for the texts "0", ..., "9", each carrying the stream name,
the ARN, the text as partition key and the bytes of the text as payload. -/
theorem putRecords_all_succeed (sc : Script) (name arn : String) (w : World Counters)
    (hok : ∀ k, k < 10 → ∃ o, sc.PutRecord (w.svc.put + k) = .ok o) :
    putRecords (scripted sc) name arn w = (.returned (), putRecords.final sc name arn w 10) ∧
    (putRecords (scripted sc) name arn w).2.calls.map Call.req =
      w.calls.map Call.req ++
        putRecords.texts.map fun t =>
          Request.PutRecord ⟨some name, some arn, some t, bytesOf t⟩ := by
  have hrun : putRecords (scripted sc) name arn w =
      (.returned (), putRecords.final sc name arn w 10) := by
    have h := putRecords_loop_skip sc name arn [] 10 0 w hok
    rw [List.append_nil] at h
    rw [putRecords, List.range_eq_range', h]
    have hcall : putCall sc name arn w.svc.put = fun j =>
        ⟨.PutRecord (putRecords.input name arn j),
          .PutRecord (sc.PutRecord (w.svc.put + j))⟩ := rfl
    simp [putRecords.loop, putRecords.final, hcall]
  refine ⟨hrun, ?_⟩
  rw [hrun, ← putRecords_requests_eq]
  simp [putRecords.final, putCall, Function.comp_def]

/-- C5. For `k < 10`, when the scripted service answers the writes of the
indices `0, ..., k-1` with successes and the write of index `k` with the error
`e`, `putRecords` panics with `e` in the world `putRecords.final ... (k+1)`: its
log grew by exactly the `k+1` put-record calls of the indices `0, ..., k`, one
each. -/
theorem putRecords_first_failure (sc : Script) (name arn : String) (w : World Counters)
    (k : Nat) (e : Err) (hk : k < 10)
    (hok : ∀ j, j < k → ∃ o, sc.PutRecord (w.svc.put + j) = .ok o)
    (herr : sc.PutRecord (w.svc.put + k) = .error e) :
    putRecords (scripted sc) name arn w =
      (.panicked (.err e), putRecords.final sc name arn w (k + 1)) := by
  obtain ⟨m, hm⟩ : ∃ m, 10 = k + (m + 1) := ⟨10 - k - 1, by omega⟩
  have hsplit : List.range 10 = List.range' 0 k ++ (k :: List.range' (k + 1) m) := by
    rw [List.range_eq_range', hm, Nat.add_comm k (m + 1), ← List.range'_append_1 0 k (m + 1),
      List.range'_succ]
    simp
  rw [putRecords, hsplit, putRecords_loop_skip sc name arn _ k 0 w hok,
    putRecords_loop_step_scripted]
  have hcall : putCall sc name arn w.svc.put = fun j =>
      ⟨.PutRecord (putRecords.input name arn j), .PutRecord (sc.PutRecord (w.svc.put + j))⟩ := rfl
  simp only [herr]
  simp [putRecords.final, hcall, List.range_succ, herr, Nat.add_assoc]

/-! ### `readShard` -/

theorem readShard_print_pairs (σ : Type) (batch : List (String × Bytes)) :
    ∀ (i : Nat) (w : World σ),
      readShard.print i (batch.map Record.ofPair) w =
        (.returned (), ⟨w.svc, w.calls, w.out ++ itemLines i batch⟩) := by
  induction batch with
  | nil => intro i w; simp [readShard.print, itemLines]
  | cons p rest ih =>
    intro i w
    simp only [List.map_cons, readShard.print, Record.ofPair]
    rw [ih]
    simp [itemLines, World.println, List.enumFrom]

theorem readShard_loop_step_scripted (sc : Script) (arn : String) (fuel : Nat)
    (iterator : Option String) (w : World Counters) :
    readShard.loop (scripted sc) arn (fuel + 1) iterator w =
      match sc.GetRecords w.svc.get with
      | .error err => (.panicked (.err err),
          ⟨{ w.svc with get := w.svc.get + 1 },
            w.calls ++ [⟨.GetRecords (readShard.getInput arn iterator),
              .GetRecords (sc.GetRecords w.svc.get)⟩], w.out⟩)
      | .ok records =>
        andThen (readShard.print 0 records.Records
          ⟨{ w.svc with get := w.svc.get + 1 },
            w.calls ++ [⟨.GetRecords (readShard.getInput arn iterator),
              .GetRecords (sc.GetRecords w.svc.get)⟩], w.out⟩) fun _ w2 =>
          match records.NextShardIterator with
          | none => (.returned (), w2)
          | some next =>
            match records.MillisBehindLatest with
            | none => (.panicked .nilDeref, w2)
            | some lag =>
              if lag = 0 then (.returned (), w2)
              else readShard.loop (scripted sc) arn fuel (some next) w2 := by
  rfl

/-- The world after a shard loop has made `n` get-records calls. -/
theorem readShard_loop_skip (sc : Script) (arn : String) (fuel : Nat) :
    ∀ (n : Nat) (first : Option String) (w : World Counters)
      (resp : Nat → GetRecordsOutput) (batch : Nat → List (String × Bytes)),
      (∀ k, k < n → sc.GetRecords (w.svc.get + k) = .ok (resp k)) →
      (∀ k, k < n → (resp k).Records = (batch k).map Record.ofPair) →
      (∀ k, k < n → ∃ next lag, (resp k).NextShardIterator = some next ∧
        (resp k).MillisBehindLatest = some lag ∧ lag ≠ 0) →
      readShard.loop (scripted sc) arn (n + fuel) first w =
        readShard.loop (scripted sc) arn fuel (iteratorAt first resp n)
          ⟨{ w.svc with get := w.svc.get + n },
            w.calls ++ (List.range n).map (getCall arn first resp),
            w.out ++ (List.range n).flatMap fun k => itemLines 0 (batch k)⟩ := by
  intro n
  induction n with
  | zero => intro first w resp batch _ _ _; simp [iteratorAt]
  | succ n ih =>
    intro first w resp batch hresp hrec hgo
    have h0 := hresp 0 (Nat.succ_pos n)
    rw [Nat.add_zero] at h0
    obtain ⟨next, lag, hnext, hlag, hne⟩ := hgo 0 (Nat.succ_pos n)
    have hfuel : n + 1 + fuel = (n + fuel) + 1 := by omega
    rw [hfuel, readShard_loop_step_scripted, h0]
    simp only [hrec 0 (Nat.succ_pos n), readShard_print_pairs, andThen, hnext, hlag, hne,
      if_false]
    rw [ih (some next) _ (fun k => resp (k + 1)) (fun k => batch (k + 1))]
    · have hit : iteratorAt (some next) (fun k => resp (k + 1)) n =
          iteratorAt first resp (n + 1) := by
        cases n with
        | zero => simp [iteratorAt, hnext]
        | succ n => simp [iteratorAt]
      have hcall : ∀ k, getCall arn (some next) (fun k => resp (k + 1)) k =
          getCall arn first resp (k + 1) := by
        intro k
        cases k with
        | zero => simp [getCall, iteratorAt, hnext]
        | succ k => simp [getCall, iteratorAt]
      have hcalls : (List.range (n + 1)).map (getCall arn first resp) =
          ⟨.GetRecords (readShard.getInput arn first), .GetRecords (.ok (resp 0))⟩ ::
            (List.range n).map (getCall arn (some next) fun k => resp (k + 1)) := by
        rw [List.range_succ_eq_map, List.map_cons, List.map_map]
        congr 1
        exact (List.map_congr_left fun k _ => hcall k).symm
      have hout : ((List.range (n + 1)).flatMap fun k => itemLines 0 (batch k)) =
          itemLines 0 (batch 0) ++ (List.range n).flatMap fun k => itemLines 0 (batch (k + 1)) := by
        rw [List.range_succ_eq_map, List.flatMap_cons, List.flatMap_map]
      rw [hit, hcalls, hout]
      simp [Nat.add_assoc, Nat.add_comm 1 n, h0]
    · intro k hk
      have := hresp (k + 1) (by omega)
      simpa [Nat.add_assoc, Nat.add_comm 1 k] using this
    · intro k hk; exact hrec (k + 1) (by omega)
    · intro k hk; exact hgo (k + 1) (by omega)

theorem readShard_scripted_run (sc : Script) (name arn : String) (shardID : Option String)
    (w : World Counters) (o : GetShardIteratorOutput) (resp : Nat → GetRecordsOutput)
    (batch : Nat → List (String × Bytes)) (n fuel : Nat) (hfuel : n < fuel)
    (hiter : sc.GetShardIterator w.svc.iter = .ok o)
    (hresp : ∀ k, k ≤ n → sc.GetRecords (w.svc.get + k) = .ok (resp k))
    (hrec : ∀ k, k ≤ n → (resp k).Records = (batch k).map Record.ofPair)
    (hgo : ∀ k, k < n → ∃ next lag, (resp k).NextShardIterator = some next ∧
      (resp k).MillisBehindLatest = some lag ∧ lag ≠ 0)
    (hstop : (resp n).NextShardIterator = none ∨ (resp n).MillisBehindLatest = some 0) :
    readShard fuel (scripted sc) name arn shardID w =
      (.returned (), readShard.final sc name arn shardID w o.ShardIterator resp batch n) := by
  obtain ⟨m, rfl⟩ : ∃ m, fuel = n + (m + 1) := ⟨fuel - n - 1, by omega⟩
  have hrun : readShard (n + (m + 1)) (scripted sc) name arn shardID w =
      readShard.loop (scripted sc) arn (n + (m + 1)) o.ShardIterator
        ⟨{ w.svc with iter := w.svc.iter + 1 },
          w.calls ++ [readShard.call (scripted sc) name arn shardID w], w.out⟩ := by
    simp [readShard, scripted, hiter, World.record, readShard.call]
  rw [hrun, readShard_loop_skip sc arn (m + 1) n o.ShardIterator
      ⟨{ w.svc with iter := w.svc.iter + 1 },
        w.calls ++ [readShard.call (scripted sc) name arn shardID w], w.out⟩ resp batch
      (fun k hk => hresp k (Nat.le_of_lt hk)) (fun k hk => hrec k (Nat.le_of_lt hk)) hgo,
    readShard_loop_step_scripted]
  simp only [hresp n (Nat.le_refl n), hrec n (Nat.le_refl n), readShard_print_pairs, andThen]
  have hfin : readShard.final sc name arn shardID w o.ShardIterator resp batch n =
      ⟨{ w.svc with iter := w.svc.iter + 1, get := w.svc.get + n + 1 },
        w.calls ++ [readShard.call (scripted sc) name arn shardID w] ++
          (List.range n).map (getCall arn o.ShardIterator resp) ++
          [⟨.GetRecords (readShard.getInput arn (iteratorAt o.ShardIterator resp n)),
            .GetRecords (.ok (resp n))⟩],
        w.out ++ ((List.range n).flatMap fun k => itemLines 0 (batch k)) ++
          itemLines 0 (batch n)⟩ := by
    simp [readShard.final, List.range_succ, getCall, Nat.add_assoc]
  rw [hfin]
  rcases hstop with hnone | hzero
  · simp [hnone]
  · cases hnext : (resp n).NextShardIterator with
    | none => simp
    | some next => simp [hzero]

/-- C6. Against any scripted service whose get-shard-iterator request succeeds
and whose get-records responses are successes `resp 0, ..., resp n` carrying the
records `batch k` (each with its partition key): if each of the first `n`
responses carries a next iterator and a non-zero lag, and response `n+1` carries
no next iterator or a zero lag, then with a loop bound above `n` `readShard`
returns after exactly `n+1` get-records calls.  When moreover `n = 0` and the
first batch is empty, nothing is printed. -/
theorem readShard_stops_at_first_end (sc : Script) (name arn : String)
    (shardID : Option String) (w : World Counters) (o : GetShardIteratorOutput)
    (resp : Nat → GetRecordsOutput) (batch : Nat → List (String × Bytes)) (n fuel : Nat)
    (hfuel : n < fuel)
    (hiter : sc.GetShardIterator w.svc.iter = .ok o)
    (hresp : ∀ k, k ≤ n → sc.GetRecords (w.svc.get + k) = .ok (resp k))
    (hrec : ∀ k, k ≤ n → (resp k).Records = (batch k).map Record.ofPair)
    (hgo : ∀ k, k < n → ∃ next lag, (resp k).NextShardIterator = some next ∧
      (resp k).MillisBehindLatest = some lag ∧ lag ≠ 0)
    (hstop : (resp n).NextShardIterator = none ∨ (resp n).MillisBehindLatest = some 0) :
    (readShard fuel (scripted sc) name arn shardID w).1 = .returned () ∧
    (readShard fuel (scripted sc) name arn shardID w).2.svc.get = w.svc.get + (n + 1) ∧
    (∃ L, (readShard fuel (scripted sc) name arn shardID w).2.calls =
        w.calls ++ readShard.call (scripted sc) name arn shardID w :: L ∧
      L.length = n + 1 ∧ ∀ c ∈ L, c.req.isGetRecords = true) ∧
    (n = 0 → batch 0 = [] →
      (readShard fuel (scripted sc) name arn shardID w).2.out = w.out) := by
  rw [readShard_scripted_run sc name arn shardID w o resp batch n fuel hfuel hiter hresp hrec
    hgo hstop]
  refine ⟨rfl, rfl, ⟨_, rfl, by simp, ?_⟩, ?_⟩
  · intro c hc
    obtain ⟨k, _, rfl⟩ := List.mem_map.1 hc
    rfl
  · intro hn hb
    subst hn
    simp [readShard.final, hb, itemLines]

/-- C7. In a run of `readShard` as in C6, the requests logged are the
trim-horizon get-shard-iterator request followed by `n+1` get-records requests,
of which the first uses the iterator returned by the get-shard-iterator request
and each later one the next iterator of the response before it
(`iteratorAt`); and the lines printed are, batch after batch in fetch order, one
line per record in batch order, showing the index of the record within its
batch, its partition key and its payload. -/
theorem readShard_chain_and_output (sc : Script) (name arn : String)
    (shardID : Option String) (w : World Counters) (o : GetShardIteratorOutput)
    (resp : Nat → GetRecordsOutput) (batch : Nat → List (String × Bytes)) (n fuel : Nat)
    (hfuel : n < fuel)
    (hiter : sc.GetShardIterator w.svc.iter = .ok o)
    (hresp : ∀ k, k ≤ n → sc.GetRecords (w.svc.get + k) = .ok (resp k))
    (hrec : ∀ k, k ≤ n → (resp k).Records = (batch k).map Record.ofPair)
    (hgo : ∀ k, k < n → ∃ next lag, (resp k).NextShardIterator = some next ∧
      (resp k).MillisBehindLatest = some lag ∧ lag ≠ 0)
    (hstop : (resp n).NextShardIterator = none ∨ (resp n).MillisBehindLatest = some 0) :
    (readShard fuel (scripted sc) name arn shardID w).2.calls.map Call.req =
      w.calls.map Call.req ++
        Request.GetShardIterator ⟨shardID, some name, some arn, ShardIteratorTypeTrimHorizon⟩ ::
          (List.range (n + 1)).map (fun k =>
            Request.GetRecords ⟨iteratorAt o.ShardIterator resp k, some arn⟩) ∧
    (readShard fuel (scripted sc) name arn shardID w).2.out =
      w.out ++ (List.range (n + 1)).flatMap (fun k =>
        (batch k).enum.map (fun p => Line.ITEM p.1 p.2.1 p.2.2)) := by
  rw [readShard_scripted_run sc name arn shardID w o resp batch n fuel hfuel hiter hresp hrec
    hgo hstop]
  constructor
  · simp [readShard.final, readShard.call, readShard.input, getCall, readShard.getInput,
      Function.comp_def]
  · rfl

/-! ### The requests of each phase -/

theorem World.Extends.refl (P : Request → Bool) (w : World σ) : World.Extends P w w :=
  ⟨[], by simp, by simp⟩

theorem World.Extends.trans {P : Request → Bool} {w1 w2 w3 : World σ}
    (h12 : World.Extends P w1 w2) (h23 : World.Extends P w2 w3) : World.Extends P w1 w3 := by
  obtain ⟨L, hL, hP⟩ := h12
  obtain ⟨M, hM, hQ⟩ := h23
  refine ⟨L ++ M, by rw [hM, hL, List.append_assoc], ?_⟩
  intro c hc
  rcases List.mem_append.1 hc with h | h
  · exact hP c h
  · exact hQ c h

theorem World.Extends.record (P : Request → Bool) (w : World σ) (req : Request)
    (resp : Response) (s : σ) (h : P req = true) : World.Extends P w (w.record req resp s) :=
  ⟨[⟨req, resp⟩], rfl, by simpa using h⟩

theorem World.Extends.println (P : Request → Bool) (w : World σ) (l : Line) :
    World.Extends P w (w.println l) :=
  ⟨[], by simp [World.println], by simp⟩

theorem createStream_loop_extends (kc : Client σ) (name : String) :
    ∀ (fuel : Nat) (w : World σ),
      World.Extends (Request.inCreate name) w (createStream.loop kc name fuel w).2 := by
  intro fuel
  induction fuel with
  | zero => intro w; exact World.Extends.refl _ w
  | succ n ih =>
    intro w
    have hstep := World.Extends.record (Request.inCreate name) w
      (.DescribeStreamSummary (describeInput name))
      (.DescribeStreamSummary (kc.DescribeStreamSummary (describeInput name) w.svc).1)
      (kc.DescribeStreamSummary (describeInput name) w.svc).2 (by simp [Request.inCreate])
    simp only [createStream.loop]
    split
    · exact hstep
    · split
      · exact hstep
      · split
        · split <;> exact hstep
        · exact hstep.trans (ih _)

theorem createStream_extends (fuel : Nat) (kc : Client σ) (name : String) (w : World σ) :
    World.Extends (Request.inCreate name) w (createStream fuel kc name w).2 := by
  have hstep := World.Extends.record (Request.inCreate name) w
    (.CreateStream (createStream.input name))
    (.CreateStream (kc.CreateStream (createStream.input name) w.svc).1)
    (kc.CreateStream (createStream.input name) w.svc).2 (by simp [Request.inCreate])
  simp only [createStream]
  split
  · split
    · exact hstep
    · exact hstep.trans (createStream_loop_extends kc name fuel _)
  · exact hstep.trans (createStream_loop_extends kc name fuel _)

theorem putRecords_loop_extends (kc : Client σ) (name arn : String) :
    ∀ (l : List Nat) (w : World σ),
      World.Extends (Request.inWrite name arn) w (putRecords.loop kc name arn l w).2 := by
  intro l
  induction l with
  | nil => intro w; exact World.Extends.refl _ w
  | cons i rest ih =>
    intro w
    have hstep := World.Extends.record (Request.inWrite name arn) w
      (.PutRecord (putRecords.input name arn i))
      (.PutRecord (kc.PutRecord (putRecords.input name arn i) w.svc).1)
      (kc.PutRecord (putRecords.input name arn i) w.svc).2
      (by simp [Request.inWrite, putRecords.input])
    simp only [putRecords.loop]
    split
    · exact hstep
    · exact hstep.trans (ih _)

theorem readShard_print_calls :
    ∀ (l : List Record) (i : Nat) (w : World σ), (readShard.print i l w).2.calls = w.calls := by
  intro l
  induction l with
  | nil => intro i w; rfl
  | cons r rest ih =>
    intro i w
    simp only [readShard.print]
    split
    · rfl
    · rw [ih]; rfl

theorem readShard_print_extends (P : Request → Bool) (l : List Record) (i : Nat)
    (w : World σ) : World.Extends P w (readShard.print i l w).2 :=
  ⟨[], by simp [readShard_print_calls], by simp⟩

theorem andThen_extends {α β : Type} (P : Request → Bool) (w : World σ)
    (r : Outcome α × World σ) (k : α → World σ → Outcome β × World σ)
    (hr : World.Extends P w r.2) (hk : ∀ a, World.Extends P r.2 (k a r.2).2) :
    World.Extends P w (andThen r k).2 := by
  unfold andThen
  split
  · exact hr.trans (hk _)
  · exact hr
  · exact hr

theorem readShard_loop_extends (kc : Client σ) (name arn : String) :
    ∀ (fuel : Nat) (iterator : Option String) (w : World σ),
      World.Extends (Request.inRead name arn) w
        (readShard.loop kc arn fuel iterator w).2 := by
  intro fuel
  induction fuel with
  | zero => intro iterator w; exact World.Extends.refl _ w
  | succ n ih =>
    intro iterator w
    have hstep := World.Extends.record (Request.inRead name arn) w
      (.GetRecords (readShard.getInput arn iterator))
      (.GetRecords (kc.GetRecords (readShard.getInput arn iterator) w.svc).1)
      (kc.GetRecords (readShard.getInput arn iterator) w.svc).2
      (by simp [Request.inRead, readShard.getInput])
    simp only [readShard.loop]
    split
    · exact hstep
    · refine hstep.trans (andThen_extends _ _ _ _ (readShard_print_extends _ _ _ _) ?_)
      intro _
      split
      · exact World.Extends.refl _ _
      · split
        · exact World.Extends.refl _ _
        · split
          · exact World.Extends.refl _ _
          · exact ih _ _

theorem readShard_extends (fuel : Nat) (kc : Client σ) (name arn : String)
    (shardID : Option String) (w : World σ) :
    World.Extends (Request.inRead name arn) w (readShard fuel kc name arn shardID w).2 := by
  have hstep := World.Extends.record (Request.inRead name arn) w
    (.GetShardIterator (readShard.input name arn shardID))
    (.GetShardIterator (kc.GetShardIterator (readShard.input name arn shardID) w.svc).1)
    (kc.GetShardIterator (readShard.input name arn shardID) w.svc).2
    (by simp [Request.inRead, readShard.input])
  simp only [readShard]
  split
  · exact hstep
  · exact hstep.trans (readShard_loop_extends kc name arn fuel _ _)

theorem getRecords_loop_extends (fuel : Nat) (kc : Client σ) (name arn : String) :
    ∀ (l : List Shard) (w : World σ),
      World.Extends (Request.inRead name arn) w (getRecords.loop fuel kc name arn l w).2 := by
  intro l
  induction l with
  | nil => intro w; exact World.Extends.refl _ w
  | cons shard rest ih =>
    intro w
    simp only [getRecords.loop]
    exact andThen_extends _ _ _ _ (readShard_extends fuel kc name arn _ w) fun _ => ih _

theorem getRecords_extends (fuel : Nat) (kc : Client σ) (name arn : String) (w : World σ) :
    World.Extends (Request.inRead name arn) w (getRecords fuel kc name arn w).2 := by
  have hstep := World.Extends.record (Request.inRead name arn) w
    (.ListShards (getRecords.input name arn))
    (.ListShards (kc.ListShards (getRecords.input name arn) w.svc).1)
    (kc.ListShards (getRecords.input name arn) w.svc).2
    (by simp [Request.inRead])
  simp only [getRecords]
  split
  · exact hstep
  · exact hstep.trans (getRecords_loop_extends fuel kc name arn _ _)

theorem deleteStream_loop_extends (kc : Client σ) (name : String) :
    ∀ (fuel : Nat) (w : World σ),
      World.Extends (Request.isDescribeOf name) w (deleteStream.loop kc name fuel w).2 := by
  intro fuel
  induction fuel with
  | zero => intro w; exact World.Extends.refl _ w
  | succ n ih =>
    intro w
    have hstep := World.Extends.record (Request.isDescribeOf name) w
      (.DescribeStreamSummary (describeInput name))
      (.DescribeStreamSummary (kc.DescribeStreamSummary (describeInput name) w.svc).1)
      (kc.DescribeStreamSummary (describeInput name) w.svc).2
      (by simp [Request.isDescribeOf])
    simp only [deleteStream.loop]
    split
    · split <;> exact hstep
    · exact hstep.trans (ih _)

theorem deleteStream_calls (fuel : Nat) (kc : Client σ) (name arn : String) (w : World σ) :
    ∃ L, (deleteStream fuel kc name arn w).2.calls =
        w.calls ++ deleteStream.call kc name arn w :: L ∧
      ∀ c ∈ L, Request.isDescribeOf name c.req = true := by
  simp only [deleteStream]
  split
  · exact ⟨[], rfl, by simp⟩
  · obtain ⟨L, hL, hP⟩ := deleteStream_loop_extends kc name fuel
      (w.record (.DeleteStream (deleteStream.input name arn))
        (.DeleteStream (kc.DeleteStream (deleteStream.input name arn) w.svc).1)
        (kc.DeleteStream (deleteStream.input name arn) w.svc).2)
    exact ⟨L, by rw [hL]; simp [World.record, deleteStream.call], hP⟩

/-! ### `main` -/

theorem andThen_returned {α β : Type} (r : Outcome α × World σ)
    (k : α → World σ → Outcome β × World σ) (a : α) (h : r.1 = .returned a) :
    andThen r k = k a r.2 := by
  simp [andThen, h]

theorem andThen_stopped (r : Outcome Unit × World σ)
    (k : Unit → World σ → Outcome Unit × World σ) (h : r.1 ≠ .returned ()) :
    andThen r k = r := by
  obtain ⟨o, w⟩ := r
  cases o with
  | returned a => exact absurd rfl h
  | panicked f => rfl
  | unfinished => rfl

theorem main_run (fuel : Nat) (kc : Client σ) (s : σ) :
    (∀ f, (main.created fuel kc s).1 = .panicked f →
      main fuel (.ok kc) s = (.panicked f, (main.created fuel kc s).2)) ∧
    ((main.created fuel kc s).1 = .unfinished →
      main fuel (.ok kc) s = (.unfinished, (main.created fuel kc s).2)) ∧
    (∀ arn, (main.created fuel kc s).1 = .returned arn →
      ((main.written kc arn (main.created fuel kc s).2).1 ≠ .returned () →
        main fuel (.ok kc) s = main.written kc arn (main.created fuel kc s).2) ∧
      ((main.written kc arn (main.created fuel kc s).2).1 = .returned () →
        ((main.read fuel kc arn (main.written kc arn (main.created fuel kc s).2).2).1 ≠
            .returned () →
          main fuel (.ok kc) s =
            main.read fuel kc arn (main.written kc arn (main.created fuel kc s).2).2) ∧
        ((main.read fuel kc arn (main.written kc arn (main.created fuel kc s).2).2).1 =
            .returned () →
          ((main.deleted fuel kc arn
              (main.read fuel kc arn (main.written kc arn (main.created fuel kc s).2).2).2).1 ≠
              .returned () →
            main fuel (.ok kc) s = main.deleted fuel kc arn
              (main.read fuel kc arn (main.written kc arn (main.created fuel kc s).2).2).2) ∧
          ((main.deleted fuel kc arn
              (main.read fuel kc arn (main.written kc arn (main.created fuel kc s).2).2).2).1 =
              .returned () →
            main fuel (.ok kc) s = (.returned (), ((main.deleted fuel kc arn
              (main.read fuel kc arn
                (main.written kc arn (main.created fuel kc s).2).2).2).2.println
                  .DELETED).println .RULE))))) := by
  have hmain : main fuel (.ok kc) s =
      andThen (main.created fuel kc s) fun arn w1 =>
      andThen (main.written kc arn w1) fun _ w2 =>
      andThen (main.read fuel kc arn w2) fun _ w3 =>
      andThen (main.deleted fuel kc arn w3) fun _ w4 =>
        (.returned (), (w4.println .DELETED).println .RULE) := rfl
  refine ⟨?_, ?_, ?_⟩
  · intro f hf
    rw [hmain]; simp [andThen, hf]
  · intro hu
    rw [hmain]; simp [andThen, hu]
  · intro arn hc
    rw [hmain, andThen_returned _ _ arn hc]
    refine ⟨fun hp => andThen_stopped _ _ hp, fun hp => ?_⟩
    rw [andThen_returned _ _ () hp]
    refine ⟨fun hg => andThen_stopped _ _ hg, fun hg => ?_⟩
    rw [andThen_returned _ _ () hg]
    refine ⟨fun hd => andThen_stopped _ _ hd, fun hd => ?_⟩
    rw [andThen_returned _ _ () hd]

theorem main_phases_returned (fuel : Nat) (kc : Client σ) (s : σ) (arn : String)
    (hc : (main.created fuel kc s).1 = .returned arn) :
    ∃ L2 L3 L4 : List Call,
      (main fuel (.ok kc) s).2.calls = (main.created fuel kc s).2.calls ++ L2 ++ L3 ++ L4 ∧
      (L4 = [] ∨ ∃ x rest, L4 = x :: rest ∧ x.req.isDeleteStream = true ∧
        ∀ y ∈ rest, y.req.isDescribeOf streamName = true) ∧
      (∀ x ∈ L2, x.req.inWrite streamName arn = true) ∧
      (∀ x ∈ L3, x.req.inRead streamName arn = true) ∧
      (∀ x ∈ L4, x.req.inDelete streamName arn = true) ∧
      (main.written kc arn (main.created fuel kc s).2).2.calls =
        (main.created fuel kc s).2.calls ++ L2 ∧
      ((main.written kc arn (main.created fuel kc s).2).1 ≠ .returned () →
        main fuel (.ok kc) s = main.written kc arn (main.created fuel kc s).2 ∧
          L3 = [] ∧ L4 = []) ∧
      ((main.written kc arn (main.created fuel kc s).2).1 = .returned () →
        (main.read fuel kc arn (main.written kc arn (main.created fuel kc s).2).2).2.calls =
          (main.created fuel kc s).2.calls ++ L2 ++ L3 ∧
        ((main.read fuel kc arn (main.written kc arn (main.created fuel kc s).2).2).1 ≠
            .returned () →
          main fuel (.ok kc) s =
            main.read fuel kc arn (main.written kc arn (main.created fuel kc s).2).2 ∧
          L4 = []) ∧
        ((main.read fuel kc arn (main.written kc arn (main.created fuel kc s).2).2).1 =
            .returned () →
          (main fuel (.ok kc) s).1 = (main.deleted fuel kc arn
            (main.read fuel kc arn (main.written kc arn (main.created fuel kc s).2).2).2).1 ∧
          (main.deleted fuel kc arn
            (main.read fuel kc arn (main.written kc arn (main.created fuel kc s).2).2).2).2.calls =
            (main.created fuel kc s).2.calls ++ L2 ++ L3 ++ L4)) := by
  obtain ⟨-, -, hrun⟩ := main_run fuel kc s
  obtain ⟨hpstop, hpgo⟩ := hrun arn hc
  obtain ⟨L2, hL2, hP2⟩ : World.Extends (Request.inWrite streamName arn)
      (main.created fuel kc s).2 (main.written kc arn (main.created fuel kc s).2).2 :=
    (World.Extends.println _ _ (.CREATED arn)).trans (putRecords_loop_extends kc _ _ _ _)
  by_cases hp : (main.written kc arn (main.created fuel kc s).2).1 = .returned ()
  · obtain ⟨hgstop, hggo⟩ := hpgo hp
    obtain ⟨L3, hL3, hP3⟩ := getRecords_extends fuel kc streamName arn
      (main.written kc arn (main.created fuel kc s).2).2
    have hL3' : (main.read fuel kc arn (main.written kc arn (main.created fuel kc s).2).2).2.calls =
        (main.created fuel kc s).2.calls ++ L2 ++ L3 := by
      rw [← hL2]; exact hL3
    by_cases hg : (main.read fuel kc arn
        (main.written kc arn (main.created fuel kc s).2).2).1 = .returned ()
    · obtain ⟨hdstop, hdgo⟩ := hggo hg
      obtain ⟨L, hL, hPL⟩ := deleteStream_calls fuel kc streamName arn
        (main.read fuel kc arn (main.written kc arn (main.created fuel kc s).2).2).2
      have hL4 : (main.deleted fuel kc arn (main.read fuel kc arn
          (main.written kc arn (main.created fuel kc s).2).2).2).2.calls =
          (main.created fuel kc s).2.calls ++ L2 ++ L3 ++
            (deleteStream.call kc streamName arn (main.read fuel kc arn
              (main.written kc arn (main.created fuel kc s).2).2).2 :: L) := by
        rw [← hL3']; exact hL
      have hmain : (main fuel (.ok kc) s).1 = (main.deleted fuel kc arn (main.read fuel kc arn
            (main.written kc arn (main.created fuel kc s).2).2).2).1 ∧
          (main fuel (.ok kc) s).2.calls = (main.deleted fuel kc arn (main.read fuel kc arn
            (main.written kc arn (main.created fuel kc s).2).2).2).2.calls := by
        by_cases hd : (main.deleted fuel kc arn (main.read fuel kc arn
            (main.written kc arn (main.created fuel kc s).2).2).2).1 = .returned ()
        · rw [hdgo hd, hd]; exact ⟨rfl, rfl⟩
        · rw [hdstop hd]; exact ⟨rfl, rfl⟩
      refine ⟨L2, L3, deleteStream.call kc streamName arn (main.read fuel kc arn
          (main.written kc arn (main.created fuel kc s).2).2).2 :: L,
        by rw [hmain.2, hL4], Or.inr ⟨_, L, rfl, rfl, hPL⟩, hP2, hP3, ?_,
        hL2, fun h => absurd hp h, fun _ => ⟨hL3', fun h => absurd hg h, fun _ =>
          ⟨hmain.1, hL4⟩⟩⟩
      intro x hx
      rcases List.mem_cons.1 hx with rfl | hx
      · simp [deleteStream.call, Request.inDelete]
      · have := hPL x hx
        revert this
        cases x.req <;> simp [Request.isDescribeOf, Request.inDelete]
    · have hmain := hgstop hg
      refine ⟨L2, L3, [], by rw [hmain, hL3', List.append_nil], Or.inl rfl, hP2, hP3, by simp,
        hL2, fun h => absurd hp h, fun _ => ⟨hL3', fun _ => ⟨hmain, rfl⟩, fun h => absurd h hg⟩⟩
  · have hmain := hpstop hp
    refine ⟨L2, [], [], by rw [hmain, hL2]; simp, Or.inl rfl, hP2, by simp, by simp, hL2,
      fun _ => ⟨hmain, rfl, rfl⟩, fun h => absurd h hp⟩

theorem not_isDeleteStream_of_inCreate (name : String) (r : Request)
    (h : r.inCreate name = true) : r.isDeleteStream = false := by
  cases r <;> simp_all [Request.inCreate, Request.isDeleteStream]

theorem not_isDeleteStream_of_inWrite (name arn : String) (r : Request)
    (h : r.inWrite name arn = true) : r.isDeleteStream = false := by
  cases r <;> simp_all [Request.inWrite, Request.isDeleteStream]

theorem not_isDeleteStream_of_inRead (name arn : String) (r : Request)
    (h : r.inRead name arn = true) : r.isDeleteStream = false := by
  cases r <;> simp_all [Request.inRead, Request.isDeleteStream]

/-- C10. A run of `main` stops at once, before any service call, when the
configuration fails to load.  Otherwise its call log is `L1 ++ L2 ++ L3 ++ L4`,
where `L1` is the log of `createStream` and holds only create-phase requests,
and, `arn` being what `createStream` returned, `L2` holds only put-record
requests carrying `arn`, `L3` only list-shards, get-shard-iterator and
get-records requests carrying `arn`, and `L4`, if not empty, the delete request
carrying `arn` followed by describe requests; no delete request occurs in
`L1 ++ L2 ++ L3`.  When `createStream` does not return, or `putRecords` or
`getRecords` does not return, the run ends as that phase ended and all later
segments are empty, so no delete request is logged; when all three return, the
run ends as `deleteStream` ends. -/
theorem main_phase_order (fuel : Nat) (kc : Client σ) (s : σ) :
    (∀ e, main fuel (.error e : Except Err (Client σ)) s =
      (.panicked (.err e), World.init s)) ∧
    ∃ L1 L2 L3 L4 : List Call,
      (main fuel (.ok kc) s).2.calls = L1 ++ L2 ++ L3 ++ L4 ∧
      (main.created fuel kc s).2.calls = L1 ∧
      (∀ x ∈ L1, x.req.inCreate streamName = true) ∧
      (L4 = [] ∨ ∃ x rest, L4 = x :: rest ∧ x.req.isDeleteStream = true ∧
        ∀ y ∈ rest, y.req.isDescribeOf streamName = true) ∧
      (∀ x ∈ L1 ++ L2 ++ L3, x.req.isDeleteStream = false) ∧
      ((∀ arn, (main.created fuel kc s).1 ≠ .returned arn) →
        (main fuel (.ok kc) s).1 ≠ .returned () ∧ L2 = [] ∧ L3 = [] ∧ L4 = []) ∧
      (∀ arn, (main.created fuel kc s).1 = .returned arn →
        (∀ x ∈ L2, x.req.inWrite streamName arn = true) ∧
        (∀ x ∈ L3, x.req.inRead streamName arn = true) ∧
        (∀ x ∈ L4, x.req.inDelete streamName arn = true) ∧
        (main.written kc arn (main.created fuel kc s).2).2.calls = L1 ++ L2 ∧
        ((main.written kc arn (main.created fuel kc s).2).1 ≠ .returned () →
          main fuel (.ok kc) s = main.written kc arn (main.created fuel kc s).2 ∧
            L3 = [] ∧ L4 = []) ∧
        ((main.written kc arn (main.created fuel kc s).2).1 = .returned () →
          (main.read fuel kc arn (main.written kc arn (main.created fuel kc s).2).2).2.calls =
            L1 ++ L2 ++ L3 ∧
          ((main.read fuel kc arn (main.written kc arn (main.created fuel kc s).2).2).1 ≠
              .returned () →
            main fuel (.ok kc) s =
              main.read fuel kc arn (main.written kc arn (main.created fuel kc s).2).2 ∧
            L4 = []) ∧
          ((main.read fuel kc arn (main.written kc arn (main.created fuel kc s).2).2).1 =
              .returned () →
            (main fuel (.ok kc) s).1 = (main.deleted fuel kc arn
              (main.read fuel kc arn (main.written kc arn (main.created fuel kc s).2).2).2).1 ∧
            (main.deleted fuel kc arn (main.read fuel kc arn
              (main.written kc arn (main.created fuel kc s).2).2).2).2.calls =
              L1 ++ L2 ++ L3 ++ L4))) := by
  refine ⟨fun e => rfl, ?_⟩
  obtain ⟨L1, hL1, hP1⟩ := createStream_extends fuel kc streamName (World.init s)
  have hL1' : (main.created fuel kc s).2.calls = L1 := by
    simpa [main.created, World.init] using hL1
  have hD1 : ∀ x ∈ L1, x.req.isDeleteStream = false := fun x hx =>
    not_isDeleteStream_of_inCreate _ _ (hP1 x hx)
  cases hc : (main.created fuel kc s).1 with
  | returned arn =>
    obtain ⟨L2, L3, L4, hlog, hshape, hP2, hP3, hP4, hw, hrest⟩ :=
      main_phases_returned fuel kc s arn hc
    rw [hL1'] at hlog hw hrest
    refine ⟨L1, L2, L3, L4, hlog, hL1', hP1, hshape, ?_, fun h => absurd rfl (h arn), ?_⟩
    · intro x hx
      rcases List.mem_append.1 hx with hx | hx
      · rcases List.mem_append.1 hx with hx | hx
        · exact hD1 x hx
        · exact not_isDeleteStream_of_inWrite _ _ _ (hP2 x hx)
      · exact not_isDeleteStream_of_inRead _ _ _ (hP3 x hx)
    · intro arn' harn
      obtain rfl : arn = arn' := by simpa using harn
      exact ⟨hP2, hP3, hP4, hw, hrest⟩
  | panicked f =>
    have hmain := (main_run fuel kc s).1 f hc
    refine ⟨L1, [], [], [], by rw [hmain]; simpa using hL1', hL1', hP1, Or.inl rfl,
      by simpa using hD1, fun _ => ⟨by rw [hmain]; simp, rfl, rfl, rfl⟩, ?_⟩
    intro arn harn
    simp at harn
  | unfinished =>
    have hmain := (main_run fuel kc s).2.1 hc
    refine ⟨L1, [], [], [], by rw [hmain]; simpa using hL1', hL1', hP1, Or.inl rfl,
      by simpa using hD1, fun _ => ⟨by rw [hmain]; simp, rfl, rfl, rfl⟩, ?_⟩
    intro arn harn
    simp at harn

theorem createStream_loop_last (kc : Client σ) (name : String) :
    ∀ (fuel : Nat) (w : World σ) (arn : String),
      (createStream.loop kc name fuel w).1 = .returned arn →
      ∃ L d, (createStream.loop kc name fuel w).2.calls =
          w.calls ++ L ++ [⟨.DescribeStreamSummary (describeInput name),
            .DescribeStreamSummary (.ok ⟨some d⟩)⟩] ∧
        d.StreamStatus ≠ StreamStatusCreating ∧ d.StreamARN = some arn := by
  intro fuel
  induction fuel with
  | zero => intro w arn h; simp [createStream.loop] at h
  | succ n ih =>
    intro w arn h
    simp only [createStream.loop] at h ⊢
    cases hr : (kc.DescribeStreamSummary (describeInput name) w.svc).1 with
    | error e => simp [hr] at h
    | ok s =>
      obtain ⟨sd⟩ := s
      cases sd with
      | none => simp [hr] at h
      | some d =>
        by_cases hst : d.StreamStatus = StreamStatusCreating
        · simp only [hr, hst, ne_eq, not_true_eq_false, if_false] at h ⊢
          obtain ⟨L, d', hL, hst', harn'⟩ := ih _ arn h
          refine ⟨⟨.DescribeStreamSummary (describeInput name),
            .DescribeStreamSummary (.ok ⟨some d⟩)⟩ :: L, d', ?_, hst', harn'⟩
          rw [hL]
          simp [World.record]
        · cases ha : d.StreamARN with
          | none => simp [hr, hst, ha] at h
          | some a =>
            simp only [hr, hst, ha, ne_eq, not_false_eq_true, if_true] at h ⊢
            have harn : a = arn := by simpa using h
            subst harn
            exact ⟨[], d, by simp [World.record], hst, ha⟩

theorem createStream_last (fuel : Nat) (kc : Client σ) (name : String) (w : World σ)
    (arn : String) (h : (createStream fuel kc name w).1 = .returned arn) :
    ∃ L d, (createStream fuel kc name w).2.calls =
        w.calls ++ L ++ [⟨.DescribeStreamSummary (describeInput name),
          .DescribeStreamSummary (.ok ⟨some d⟩)⟩] ∧
      d.StreamStatus ≠ StreamStatusCreating ∧ d.StreamARN = some arn := by
  simp only [createStream] at h ⊢
  cases hr : (kc.CreateStream (createStream.input name) w.svc).1 with
  | error e =>
    cases hriu : e.AsResourceInUse with
    | false => simp [hr, hriu] at h
    | true =>
      simp only [hr, hriu, Bool.not_true, Bool.false_eq_true, if_false] at h ⊢
      obtain ⟨L, d, hL, hst, harn⟩ := createStream_loop_last kc name fuel _ arn h
      refine ⟨⟨.CreateStream (createStream.input name), .CreateStream (.error e)⟩ :: L, d, ?_,
        hst, harn⟩
      rw [hL]
      simp [World.record]
  | ok o =>
    simp only [hr] at h ⊢
    obtain ⟨L, d, hL, hst, harn⟩ := createStream_loop_last kc name fuel _ arn h
    refine ⟨⟨.CreateStream (createStream.input name), .CreateStream (.ok o)⟩ :: L, d, ?_,
      hst, harn⟩
    rw [hL]
    simp [World.record]

theorem not_isData_of_inCreate (name : String) (r : Request)
    (h : r.inCreate name = true) : r.isData = false := by
  cases r <;> simp_all [Request.inCreate, Request.isData]

/-- C3, as amended. In every run of `main`, a request of `putRecords` or
`getRecords` is logged only after `createStream` has returned, and the last call
of `createStream` is then a describe call answered with a summary whose status
is not `CREATING` and whose ARN is the one returned.  Nothing more is known of
that status. -/
theorem main_data_call_after_not_creating (fuel : Nat) (kc : Client σ) (s : σ) (c : Call)
    (hc : c ∈ (main fuel (.ok kc) s).2.calls) (hdata : c.req.isData = true) :
    ∃ arn L d rest,
      (createStream fuel kc streamName (World.init s)).1 = .returned arn ∧
      (createStream fuel kc streamName (World.init s)).2.calls =
        L ++ [⟨.DescribeStreamSummary (describeInput streamName),
          .DescribeStreamSummary (.ok ⟨some d⟩)⟩] ∧
      d.StreamStatus ≠ StreamStatusCreating ∧ d.StreamARN = some arn ∧
      (∀ x ∈ (createStream fuel kc streamName (World.init s)).2.calls, x.req.isData = false) ∧
      (main fuel (.ok kc) s).2.calls =
        (createStream fuel kc streamName (World.init s)).2.calls ++ rest ∧
      c ∈ rest := by
  obtain ⟨L1, hL1, hP1⟩ := createStream_extends fuel kc streamName (World.init s)
  have hnodata : ∀ x ∈ (createStream fuel kc streamName (World.init s)).2.calls,
      x.req.isData = false := by
    intro x hx
    rw [hL1] at hx
    exact not_isData_of_inCreate _ _ (hP1 x (by simpa [World.init] using hx))
  have hnot : c ∉ (createStream fuel kc streamName (World.init s)).2.calls := by
    intro hx
    rw [hnodata c hx] at hdata
    exact Bool.noConfusion hdata
  cases hcr : (createStream fuel kc streamName (World.init s)).1 with
  | returned arn =>
    obtain ⟨L, d, hL, hst, harn⟩ := createStream_last fuel kc streamName (World.init s) arn hcr
    obtain ⟨L2, L3, L4, hlog, -⟩ := main_phases_returned fuel kc s arn hcr
    refine ⟨arn, L, d, L2 ++ L3 ++ L4, rfl, by simpa [World.init] using hL, hst, harn,
      hnodata, ?_, ?_⟩
    · rw [hlog]; simp [main.created]
    · rw [hlog] at hc
      simp only [main.created, List.append_assoc, List.mem_append] at hc ⊢
      rcases hc with h | h
      · exact absurd h hnot
      · exact h
  | panicked f =>
    rw [(main_run fuel kc s).1 f hcr] at hc
    exact absurd hc hnot
  | unfinished =>
    rw [(main_run fuel kc s).2.1 hcr] at hc
    exact absurd hc hnot

/-- C3, counterexample. Against the service `deletingScript`, `createStream`
returns after a single describe response whose status is `DELETING`, and `main`
goes on to issue the put-record request of index 0. -/
theorem main_writes_to_deleting_stream :
    (createStream 1 (scripted deletingScript) streamName (World.init Counters.zero)).1 =
      .returned "arn:stream/persistence-test" ∧
    (createStream 1 (scripted deletingScript) streamName
        (World.init Counters.zero)).2.calls.getLast? =
      some ⟨.DescribeStreamSummary (describeInput streamName), .DescribeStreamSummary
        (.ok ⟨some ⟨some "arn:stream/persistence-test", StreamStatusDeleting⟩⟩)⟩ ∧
    (main 1 (.ok (scripted deletingScript)) Counters.zero).2.calls.map Call.req =
      [.CreateStream (createStream.input streamName),
        .DescribeStreamSummary (describeInput streamName),
        .PutRecord (putRecords.input streamName "arn:stream/persistence-test" 0)] := by
  decide

/-! ### Round trip through the single-shard log -/

theorem batchedLines_shift (limit : Nat) :
    ∀ (l : List (String × Bytes)) (n : Nat),
      batchedLines limit (n + limit) l = batchedLines limit n l := by
  intro l
  induction l with
  | nil => intro n; rfl
  | cons p rest ih =>
    intro n
    have h := ih (n + 1)
    simp only [batchedLines, List.enumFrom_cons, List.map_cons] at h ⊢
    rw [Nat.add_mod_right, Nat.add_right_comm, h]

theorem batchedLines_small (limit : Nat) (l : List (String × Bytes)) (h : l.length ≤ limit) :
    batchedLines limit 0 l = itemLines 0 l := by
  unfold batchedLines itemLines
  apply List.map_congr_left
  intro p hp
  have hlt : p.1 < l.length := by
    have := List.fst_lt_add_of_mem_enumFrom hp
    omega
  rw [Nat.mod_eq_of_lt (Nat.lt_of_lt_of_le hlt h)]

theorem batchedLines_chunk (limit : Nat) (l : List (String × Bytes)) :
    batchedLines limit 0 l =
      itemLines 0 (l.take limit) ++ batchedLines limit 0 (l.drop limit) := by
  have hsplit : batchedLines limit 0 l =
      batchedLines limit 0 (l.take limit) ++
        batchedLines limit (l.take limit).length (l.drop limit) := by
    conv_lhs => rw [← List.take_append_drop limit l]
    simp only [batchedLines, List.enumFrom_append, List.map_append, Nat.zero_add]
  rw [hsplit, batchedLines_small limit _ (by simp [List.length_take])]
  congr 1
  by_cases hlen : l.length ≤ limit
  · rw [List.drop_eq_nil_of_le hlen]; rfl
  · have htake : (l.take limit).length = 0 + limit := by
      rw [List.length_take]; omega
    rw [htake, batchedLines_shift]
theorem Stream.cursor_length (pos : Nat) : (Stream.cursor pos).length = pos := by
  simp [Stream.cursor, String.length]

theorem readShard_loop_step_log (limit : Nat) (arn : String) (pairs : List (String × Bytes))
    (pos fuel : Nat) (w : World Stream) (hsvc : w.svc = ⟨true, pairs.map Record.ofPair⟩) :
    ∃ c : Call, readShard.loop (logService limit) arn (fuel + 1) (some (Stream.cursor pos)) w =
      if pairs.length ≤ pos + ((pairs.drop pos).take limit).length then
        (.returned (),
          ⟨w.svc, w.calls ++ [c], w.out ++ itemLines 0 ((pairs.drop pos).take limit)⟩)
      else
        readShard.loop (logService limit) arn fuel
          (some (Stream.cursor (pos + ((pairs.drop pos).take limit).length)))
          ⟨w.svc, w.calls ++ [c], w.out ++ itemLines 0 ((pairs.drop pos).take limit)⟩ := by
  have hbatch : ((pairs.map Record.ofPair).drop pos).take limit =
      ((pairs.drop pos).take limit).map Record.ofPair := by
    rw [List.map_take, List.map_drop]
  refine ⟨⟨.GetRecords (readShard.getInput arn (some (Stream.cursor pos))),
    .GetRecords ((logService limit).GetRecords
      (readShard.getInput arn (some (Stream.cursor pos))) w.svc).1⟩, ?_⟩
  have hget : (logService limit).GetRecords
      (readShard.getInput arn (some (Stream.cursor pos))) w.svc =
      (.ok ⟨((pairs.drop pos).take limit).map Record.ofPair,
        some (Stream.cursor (pos + ((pairs.drop pos).take limit).length)),
        some ((pairs.length - (pos + ((pairs.drop pos).take limit).length) : Nat) : Int)⟩,
        w.svc) := by
    simp only [logService, hsvc, readShard.getInput, if_true, Stream.cursor_length, hbatch,
      List.length_map]
  simp only [readShard.loop, hget, readShard_print_pairs, andThen, World.record,
    Int.natCast_eq_zero, Nat.sub_eq_zero_iff_le]
theorem readShard_loop_drain (limit : Nat) (hlimit : 0 < limit) (arn : String)
    (pairs : List (String × Bytes)) :
    ∀ (m pos fuel : Nat) (w : World Stream),
      w.svc = ⟨true, pairs.map Record.ofPair⟩ → pairs.length - pos ≤ m → m < fuel →
      (readShard.loop (logService limit) arn fuel (some (Stream.cursor pos)) w).1 =
          .returned () ∧
        (readShard.loop (logService limit) arn fuel (some (Stream.cursor pos)) w).2.svc =
          w.svc ∧
        (readShard.loop (logService limit) arn fuel (some (Stream.cursor pos)) w).2.out =
          w.out ++ batchedLines limit 0 (pairs.drop pos) := by
  intro m
  induction m with
  | zero =>
    intro pos fuel w hsvc hm hfuel
    obtain ⟨f, rfl⟩ : ∃ f, fuel = f + 1 := ⟨fuel - 1, by omega⟩
    obtain ⟨c, hstep⟩ := readShard_loop_step_log limit arn pairs pos f w hsvc
    have hle : pairs.length ≤ pos + ((pairs.drop pos).take limit).length := by omega
    have hnil : pairs.drop pos = [] := List.drop_eq_nil_of_le (by omega)
    rw [hstep, if_pos hle]
    simp [hnil, itemLines, batchedLines]
  | succ m ih =>
    intro pos fuel w hsvc hm hfuel
    obtain ⟨f, rfl⟩ : ∃ f, fuel = f + 1 := ⟨fuel - 1, by omega⟩
    obtain ⟨c, hstep⟩ := readShard_loop_step_log limit arn pairs pos f w hsvc
    have hB : ((pairs.drop pos).take limit).length = min limit (pairs.length - pos) := by
      simp [List.length_take, List.length_drop]
    rw [hstep, batchedLines_chunk limit (pairs.drop pos)]
    by_cases hle : pairs.length ≤ pos + ((pairs.drop pos).take limit).length
    · rw [if_pos hle]
      have hnil : (pairs.drop pos).drop limit = [] :=
        List.drop_eq_nil_of_le (by rw [List.length_drop]; omega)
      simp [hnil, batchedLines]
    · rw [if_neg hle]
      have hlen : ((pairs.drop pos).take limit).length = limit := by omega
      obtain ⟨h1, h2, h3⟩ := ih (pos + ((pairs.drop pos).take limit).length) f
        ⟨w.svc, w.calls ++ [c], w.out ++ itemLines 0 ((pairs.drop pos).take limit)⟩ hsvc
        (by omega) (by omega)
      refine ⟨h1, h2, ?_⟩
      rw [h3, hlen, List.drop_drop, List.append_assoc]
theorem putRecords_loop_log (limit : Nat) (name arn : String) :
    ∀ (l : List Nat) (w : World Stream) (rs : List Record), w.svc = ⟨true, rs⟩ →
      (putRecords.loop (logService limit) name arn l w).1 = .returned () ∧
      (putRecords.loop (logService limit) name arn l w).2.svc =
        ⟨true, rs ++ l.map fun i => Record.ofPair (Sprint i, bytesOf (Sprint i))⟩ ∧
      (putRecords.loop (logService limit) name arn l w).2.out = w.out := by
  intro l
  induction l with
  | nil => intro w rs hsvc; simp [putRecords.loop, hsvc]
  | cons i rest ih =>
    intro w rs hsvc
    have hput : (logService limit).PutRecord (putRecords.input name arn i) w.svc =
        (.ok ⟨some (toString rs.length), some Stream.shardId⟩,
          ⟨true, rs ++ [Record.ofPair (Sprint i, bytesOf (Sprint i))]⟩) := by
      simp [logService, hsvc, putRecords.input, Record.ofPair]
    simp only [putRecords.loop, hput]
    obtain ⟨h1, h2, h3⟩ := ih
      (w.record (.PutRecord (putRecords.input name arn i))
        (.PutRecord (.ok ⟨some (toString rs.length), some Stream.shardId⟩))
        ⟨true, rs ++ [Record.ofPair (Sprint i, bytesOf (Sprint i))]⟩)
      (rs ++ [Record.ofPair (Sprint i, bytesOf (Sprint i))]) rfl
    refine ⟨h1, ?_, ?_⟩
    · rw [h2]; simp
    · rw [h3]; rfl

theorem putRecords_pairs_eq :
    ((List.range 10).map fun i => (Sprint i, bytesOf (Sprint i))) = putRecords.pairs := by
  rfl

theorem getRecords_log (limit fuel : Nat) (name arn : String) (w : World Stream)
    (pairs : List (String × Bytes)) (hlimit : 0 < limit) (hfuel : pairs.length < fuel)
    (hsvc : w.svc = ⟨true, pairs.map Record.ofPair⟩) :
    (getRecords fuel (logService limit) name arn w).1 = .returned () ∧
    (getRecords fuel (logService limit) name arn w).2.out =
      w.out ++ batchedLines limit 0 pairs := by
  have hlist : (logService limit).ListShards (getRecords.input name arn) w.svc =
      (.ok ⟨[⟨some Stream.shardId⟩]⟩, w.svc) := by
    simp [logService, hsvc]
  have hiter : (logService limit).GetShardIterator
      (readShard.input name arn (some Stream.shardId)) w.svc =
      (.ok ⟨some (Stream.cursor 0)⟩, w.svc) := by
    simp [logService, hsvc]
  obtain ⟨h1, h2, h3⟩ := readShard_loop_drain limit hlimit arn pairs pairs.length 0 fuel
    (((w.record (.ListShards (getRecords.input name arn))
      (.ListShards (.ok ⟨[⟨some Stream.shardId⟩]⟩)) w.svc).record
      (.GetShardIterator (readShard.input name arn (some Stream.shardId)))
      (.GetShardIterator (.ok ⟨some (Stream.cursor 0)⟩)) w.svc))
    hsvc (by omega) hfuel
  simp only [getRecords, hlist, getRecords.loop, readShard, World.record, hiter, andThen]
  simp only [World.record] at h1 h2 h3
  simp only [h1]
  exact ⟨trivial, by simpa using h3⟩

/-- C9. Against the single-shard log service with any positive batch limit,
started with the stream present and empty, `putRecords` returns and `getRecords`,
run next with a loop bound above 10, returns having printed exactly ten lines:
one per text "0", ..., "9" in this order, with the text as partition key, its
bytes as payload, and the index of the record within its batch. -/
theorem write_then_read_round_trip (limit fuel : Nat) (name arn : String) (w : World Stream)
    (hlimit : 0 < limit) (hfuel : 10 < fuel) (hempty : w.svc = ⟨true, []⟩) :
    (putRecords (logService limit) name arn w).1 = .returned () ∧
    (getRecords fuel (logService limit) name arn
      (putRecords (logService limit) name arn w).2).1 = .returned () ∧
    (getRecords fuel (logService limit) name arn
      (putRecords (logService limit) name arn w).2).2.out =
      w.out ++ putRecords.texts.enum.map fun p => .ITEM (p.1 % limit) p.2 (bytesOf p.2) := by
  obtain ⟨hp1, hp2, hp3⟩ := putRecords_loop_log limit name arn (List.range 10) w [] hempty
  have hsvc : (putRecords (logService limit) name arn w).2.svc =
      ⟨true, putRecords.pairs.map Record.ofPair⟩ := by
    rw [putRecords, hp2, ← putRecords_pairs_eq]
    simp
  obtain ⟨hg1, hg2⟩ := getRecords_log limit fuel name arn
    (putRecords (logService limit) name arn w).2 putRecords.pairs hlimit hfuel hsvc
  refine ⟨hp1, hg1, ?_⟩
  rw [hg2]
  have hout : (putRecords (logService limit) name arn w).2.out = w.out := hp3
  rw [hout]
  rfl

/-! ### Instances -/

/-- C1, instance: the create request is answered `ResourceInUseException`. -/
theorem createStream_create_step_witness :
    createStream 5 (scripted sampleScript) streamName (World.init Counters.zero) =
      createStream.loop (scripted sampleScript) streamName 5
        (createStream.afterCreate (scripted sampleScript) streamName
          (World.init Counters.zero)) :=
  (createStream_create_step 5 (scripted sampleScript) streamName
    (World.init Counters.zero)).2.2 (Or.inr ⟨_, rfl, rfl⟩)

/-- C2, instance: two `CREATING` responses, then `ACTIVE`. -/
theorem createStream_poll_result_witness :
    createStream 5 (scripted sampleScript) streamName (World.init Counters.zero) =
      (.returned sampleARN,
        createStream.final sampleScript streamName (World.init Counters.zero) 2) :=
  (createStream_poll_result sampleScript streamName (World.init Counters.zero) 2 5
    (by decide) (Or.inr ⟨_, rfl, rfl⟩)
    (fun k hk => by
      have hk' : k = 0 ∨ k = 1 := by omega
      rcases hk' with rfl | rfl <;> exact ⟨_, rfl, rfl⟩)).1
    ⟨some sampleARN, StreamStatusActive⟩ sampleARN rfl (by decide) rfl

/-- C3, instance: the first write of a run against the sample service. -/
theorem main_data_call_after_not_creating_witness :
    ∃ arn L d rest,
      (createStream 5 (scripted sampleScript) streamName (World.init Counters.zero)).1 =
        .returned arn ∧
      (createStream 5 (scripted sampleScript) streamName (World.init Counters.zero)).2.calls =
        L ++ [⟨.DescribeStreamSummary (describeInput streamName),
          .DescribeStreamSummary (.ok ⟨some d⟩)⟩] ∧
      d.StreamStatus ≠ StreamStatusCreating ∧ d.StreamARN = some arn ∧
      (∀ x ∈ (createStream 5 (scripted sampleScript) streamName
        (World.init Counters.zero)).2.calls, x.req.isData = false) ∧
      (main 5 (.ok (scripted sampleScript)) Counters.zero).2.calls =
        (createStream 5 (scripted sampleScript) streamName
          (World.init Counters.zero)).2.calls ++ rest ∧
      (⟨.PutRecord (putRecords.input streamName sampleARN 0),
        .PutRecord (.ok ⟨some "0", some "shardId-000000000000"⟩)⟩ : Call) ∈ rest :=
  main_data_call_after_not_creating 5 (scripted sampleScript) Counters.zero
    ⟨.PutRecord (putRecords.input streamName sampleARN 0),
      .PutRecord (.ok ⟨some "0", some "shardId-000000000000"⟩)⟩ (by decide) rfl

/-- C4, instance: the sample service. -/
theorem putRecords_all_succeed_witness :
    putRecords (scripted sampleScript) streamName sampleARN (World.init Counters.zero) =
      (.returned (),
        putRecords.final sampleScript streamName sampleARN (World.init Counters.zero) 10) :=
  (putRecords_all_succeed sampleScript streamName sampleARN (World.init Counters.zero)
    (fun _ _ => ⟨_, rfl⟩)).1

/-- C5, instance: the write of index 3 is throttled. -/
theorem putRecords_first_failure_witness :
    putRecords (scripted throttledScript) streamName sampleARN (World.init Counters.zero) =
      (.panicked (.err (.Wrap "PutRecord" (.Other "ProvisionedThroughputExceededException"))),
        putRecords.final throttledScript streamName sampleARN (World.init Counters.zero) 4) :=
  putRecords_first_failure throttledScript streamName sampleARN (World.init Counters.zero) 3 _
    (by decide)
    (fun j hj => by
      have hj' : j = 0 ∨ j = 1 ∨ j = 2 := by omega
      rcases hj' with rfl | rfl | rfl <;> exact ⟨_, rfl⟩)
    rfl

/-- C6, instance: the second response reports a zero lag. -/
theorem readShard_stops_at_first_end_witness :
    (readShard 5 (scripted sampleScript) streamName sampleARN (some "shardId-000000000000")
      (World.init Counters.zero)).1 = .returned () :=
  (readShard_stops_at_first_end sampleScript streamName sampleARN
    (some "shardId-000000000000") (World.init Counters.zero) ⟨some "iterator-0"⟩
    sampleRecords sampleBatch 1 5 (by decide) rfl
    (fun k _ => by
      show sampleScript.GetRecords (0 + k) = _
      rw [Nat.zero_add]
      rfl)
    (fun _ _ => rfl)
    (fun k hk => by
      have hk' : k = 0 := by omega
      subst hk'
      exact ⟨_, _, rfl, rfl, by decide⟩)
    (Or.inr rfl)).1

/-- C7, instance: two batches of two and one records. -/
theorem readShard_chain_and_output_witness :
    (readShard 5 (scripted sampleScript) streamName sampleARN (some "shardId-000000000000")
      (World.init Counters.zero)).2.out =
      [.ITEM 0 "0" (bytesOf "0"), .ITEM 1 "1" (bytesOf "1"), .ITEM 0 "2" (bytesOf "2")] :=
  (readShard_chain_and_output sampleScript streamName sampleARN
    (some "shardId-000000000000") (World.init Counters.zero) ⟨some "iterator-0"⟩
    sampleRecords sampleBatch 1 5 (by decide) rfl
    (fun k _ => by
      show sampleScript.GetRecords (0 + k) = _
      rw [Nat.zero_add]
      rfl)
    (fun _ _ => rfl)
    (fun k hk => by
      have hk' : k = 0 := by omega
      subst hk'
      exact ⟨_, _, rfl, rfl, by decide⟩)
    (Or.inr rfl)).2

/-- C8, instance: three successful describe responses, then `ResourceNotFoundException`. -/
theorem deleteStream_result_witness :
    deleteStream 5 (scripted sampleScript) streamName sampleARN (World.init Counters.zero) =
      (.returned (),
        deleteStream.final sampleScript streamName sampleARN (World.init Counters.zero) 3) :=
  (deleteStream_result sampleScript streamName sampleARN (World.init Counters.zero)).2.1
    5 ⟨⟩ 3 _ rfl (by decide)
    (fun k hk => by
      have hk' : k = 0 ∨ k = 1 ∨ k = 2 := by omega
      rcases hk' with rfl | rfl | rfl <;> exact ⟨_, rfl⟩)
    rfl

/-- C9, instance: batches of at most three records. -/
theorem write_then_read_round_trip_witness :
    (getRecords 11 (logService 3) streamName Stream.arn
      (putRecords (logService 3) streamName Stream.arn (World.init ⟨true, []⟩)).2).2.out =
      [.ITEM 0 "0" (bytesOf "0"), .ITEM 1 "1" (bytesOf "1"), .ITEM 2 "2" (bytesOf "2"),
        .ITEM 0 "3" (bytesOf "3"), .ITEM 1 "4" (bytesOf "4"), .ITEM 2 "5" (bytesOf "5"),
        .ITEM 0 "6" (bytesOf "6"), .ITEM 1 "7" (bytesOf "7"), .ITEM 2 "8" (bytesOf "8"),
        .ITEM 0 "9" (bytesOf "9")] :=
  (write_then_read_round_trip 3 11 streamName Stream.arn (World.init ⟨true, []⟩)
    (by decide) (by decide) rfl).2.2

/-- C10, instance: the configuration fails to load. -/
theorem main_phase_order_witness :
    main 5 (.error (.Other "no credentials") : Except Err (Client Counters)) Counters.zero =
      (.panicked (.err (.Other "no credentials")), World.init Counters.zero) :=
  (main_phase_order 5 (scripted sampleScript) Counters.zero).1 _

end Properties

end Kinesis
